import Mathlib

/-!
# smallcode: the calculator of `simple_calculator.cpp` and `Renderer::Submit`

A shallow embedding of the recursive-descent evaluator (namespace `Calc`) and of the
submission of pixels to the renderer of `simple_colored_renderer.h` (namespace `Render`),
with theorems about them.

Modelling conventions.

* `src` is the input line as a list of characters, `i` the global cursor and
  `had_error` the global error flag; the two globals are threaded through every
  function as a `State`.
* `int` is the set of integers: an input shorter than `2^31` characters never
  overflows it.  The one wrap-around that ordinary inputs do reach,
  `std::string::npos` stored in the `int` cursor, is modelled explicitly and gives `-1`.
  The coordinates of the renderer are integers as well, and `x++` is `x + 1`.
* `src[i]` is defined by the C++ standard for `0 <= i <= src.length()` only (the
  character at `src.length()` is NUL); that is `charAt`.  The cursor also reaches `-1`, and
  `src[-1]` is the byte in front of the characters: the compiled program finds a zero byte
  there (the top byte of the size word in front of the characters), so `readChar` gives NUL
  at `-1`.
  A read at any other index is reported as the fault `outOfBounds`.  A store outside a
  vector of the renderer is reported as `none`.
* `float` arithmetic and `std::stof` belong to the C++ library; they are a parameter
  `FloatOps V` of the evaluator, so every theorem holds for whatever the library computes.
  Two instances serve as examples: `symOps` records the calls, `ratOps` computes exactly.
* The mutually recursive functions and the `while` loops take a `fuel` argument that
  bounds the nesting of calls and loop iterations; running out is the fault `outOfFuel`.
-/

namespace Calc

/-- The library operations on `float` that the evaluator uses. -/
structure FloatOps (V : Type) where
  -- The literal `0` of `float val = 0`.
  zero : V
  -- `std::stof` applied to `src.substr(i)`; `none` when it throws `std::out_of_range`.
  stof : List Char → Option V
  -- Unary minus.
  neg : V → V
  -- The operator `+=`.
  add : V → V → V
  -- The operator `-=`.
  sub : V → V → V
  -- The operator `*=`.
  mul : V → V → V
  -- The operator `/=`.
  div : V → V → V
  -- The library function `pow`.
  pow : V → V → V

/-- The two globals `i` and `had_error`. -/
structure State where
  i : Int
  had_error : Bool
  deriving DecidableEq

/-- Ways in which an evaluation fails to return. -/
inductive Fault where
  | outOfBounds
  | stofThrown
  | outOfFuel
  deriving DecidableEq

/-- Outcome of running one function: the returned value with the globals afterwards, or a fault. -/
inductive Res (α : Type) where
  | ok (val : α) (st : State)
  | fault (f : Fault)
  deriving DecidableEq

/-- Sequencing: run `k` on the value and globals of `r`, propagate a fault. -/
def Res.bind {α β : Type} (r : Res α) (k : α → State → Res β) : Res β :=
  match r with
  | .ok a st => k a st
  | .fault f => .fault f

/-- The NUL character that terminates a `std::string`. -/
def NUL : Char := Char.ofNat 0

/-- The expression `src[i]` with `i` an `int`: defined for `0 <= i <= src.length()`. -/
def charAt (src : List Char) (i : Int) : Option Char :=
  if i < 0 then none
  else if i < src.length then some (src.getD i.toNat NUL)
  else if i = src.length then some NUL
  else none

/-- The expression `src[i]` as the compiled program reads it: `charAt` inside the buffer, and
the zero byte at index `-1`, the one index outside the buffer that the cursor reaches (it is
`npos` stored in the `int`). The C++ standard leaves that read undefined. -/
def readChar (src : List Char) (i : Int) : Option Char :=
  if i = -1 then some NUL else charAt src i

/-- The loop `while (i < src.length() && src[i] == ' ') ++i;` run for at most `n` iterations.
The comparison is unsigned, so a negative `i` is not below the length. -/
def skipSpaces (src : List Char) : Nat → Int → Int
  | 0, i => i
  | n + 1, i =>
    if 0 ≤ i ∧ i < src.length ∧ src.getD i.toNat NUL = ' ' then skipSpaces src n (i + 1) else i

/-- The function `match`: skip spaces, then compare `src[i]` with `expected`;
`++i` converted to `bool` is `true` unless the incremented cursor is `0`. -/
def matchCh (src : List Char) (expected : Char) (st : State) : Res Bool :=
  let i := skipSpaces src src.length st.i
  match readChar src i with
  | none => .fault .outOfBounds
  | some c =>
    if c ≠ expected then .ok false { st with i := i }
    else .ok (decide (i + 1 ≠ 0)) { st with i := i + 1 }

/-- The library predicate `isdigit` on the characters of the input. -/
def isdigit (c : Char) : Bool := decide ('0' ≤ c ∧ c ≤ '9')

/-- The character set `"0123456789."` passed to `find_first_not_of`. -/
def digitsDot : List Char := "0123456789.".toList

/-- Scan of `find_first_not_of`: `rest` is the input from index `k` on. -/
def findFrom (chars : List Char) : List Char → Nat → Option Nat
  | [], _ => none
  | c :: rest, k => if c ∈ chars then findFrom chars rest (k + 1) else some k

/-- The call `src.find_first_not_of(chars, pos)`; `none` stands for `npos`. -/
def find_first_not_of (src chars : List Char) (pos : Nat) : Option Nat :=
  findFrom chars (src.drop pos) pos

/-- Storing the `size_t` result of `find_first_not_of` in the `int` cursor: `npos` becomes `-1`. -/
def intOfPos : Option Nat → Int
  | none => -1
  | some k => k

/-- The store `i = src.length() - 1; had_error = true;`. -/
def errorState (src : List Char) : State :=
  { i := (src.length : Int) - 1, had_error := true }

section Evaluator

variable {V : Type} (A : FloatOps V) (src : List Char)

mutual

/-- The function `primary`. -/
def primary : Nat → State → Res V
  | 0, _ => .fault .outOfFuel
  | fuel + 1, st =>
    (matchCh src '(' st).bind fun b st1 =>
      if b then
        (term fuel st1).bind fun val st2 =>
          (matchCh src ')' st2).bind fun b2 st3 =>
            if !b2 then .ok val (errorState src) else .ok val st3
      else
        match readChar src st1.i with
        | none => .fault .outOfBounds
        | some c =>
          if isdigit c then
            match A.stof (src.drop st1.i.toNat) with
            | none => .fault .stofThrown
            | some val =>
              .ok val { st1 with i := intOfPos (find_first_not_of src digitsDot st1.i.toNat) }
          else .ok A.zero (errorState src)

/-- The function `unary`. -/
def unary : Nat → State → Res V
  | 0, _ => .fault .outOfFuel
  | fuel + 1, st =>
    (matchCh src '-' st).bind fun b st1 =>
      if b then (unary fuel st1).bind fun val st2 => .ok (A.neg val) st2
      else primary fuel st1

/-- The function `expo`. -/
def expo : Nat → State → Res V
  | 0, _ => .fault .outOfFuel
  | fuel + 1, st =>
    (unary fuel st).bind fun val st1 =>
      (matchCh src '^' st1).bind fun b st2 =>
        if b then (unary fuel st2).bind fun e st3 => .ok (A.pow val e) st3
        else .ok val st2

/-- The loop `while (match('*')) val *= expo();` of `factor`. -/
def factorMul : Nat → V → State → Res V
  | 0, _, _ => .fault .outOfFuel
  | fuel + 1, val, st =>
    (matchCh src '*' st).bind fun b st1 =>
      if b then (expo fuel st1).bind fun e st2 => factorMul fuel (A.mul val e) st2
      else .ok val st1

/-- The loop `while (match('/')) val /= expo();` of `factor`. -/
def factorDiv : Nat → V → State → Res V
  | 0, _, _ => .fault .outOfFuel
  | fuel + 1, val, st =>
    (matchCh src '/' st).bind fun b st1 =>
      if b then (expo fuel st1).bind fun e st2 => factorDiv fuel (A.div val e) st2
      else .ok val st1

/-- The function `factor`. -/
def factor : Nat → State → Res V
  | 0, _ => .fault .outOfFuel
  | fuel + 1, st =>
    (expo fuel st).bind fun val st1 =>
      (factorMul fuel val st1).bind fun val2 st2 => factorDiv fuel val2 st2

/-- The loop `while (match('+')) val += factor();` of `term`. -/
def termAdd : Nat → V → State → Res V
  | 0, _, _ => .fault .outOfFuel
  | fuel + 1, val, st =>
    (matchCh src '+' st).bind fun b st1 =>
      if b then (factor fuel st1).bind fun e st2 => termAdd fuel (A.add val e) st2
      else .ok val st1

/-- The loop `while (match('-')) val -= factor();` of `term`. -/
def termSub : Nat → V → State → Res V
  | 0, _, _ => .fault .outOfFuel
  | fuel + 1, val, st =>
    (matchCh src '-' st).bind fun b st1 =>
      if b then (factor fuel st1).bind fun e st2 => termSub fuel (A.sub val e) st2
      else .ok val st1

/-- The function `term`, the entry point called by `main`. -/
def term : Nat → State → Res V
  | 0, _ => .fault .outOfFuel
  | fuel + 1, st =>
    (factor fuel st).bind fun val st1 =>
      (termAdd fuel val st1).bind fun val2 st2 => termSub fuel val2 st2

end

end Evaluator

/-- The reset `i = 0, had_error = false;` that `main` performs before calling `term`. -/
def start : State := { i := 0, had_error := false }

/-- Symbolic `float` values: the expression of library operations that was computed. -/
inductive Sym where
  | zero
  | lit (arg : List Char)
  | neg (a : Sym)
  | add (a b : Sym)
  | sub (a b : Sym)
  | mul (a b : Sym)
  | div (a b : Sym)
  | pow (a b : Sym)
  deriving DecidableEq

/-- The arithmetic that records every library call; `stof` records its argument and never throws. -/
def symOps : FloatOps Sym :=
  { zero := .zero, stof := fun s => some (.lit s), neg := .neg, add := .add, sub := .sub,
    mul := .mul, div := .div, pow := .pow }

/-- The decimal digits. -/
def decDigits : List Char := "0123456789".toList

/-- A numeric literal: one or more decimal digits, optionally followed by `.` and one or
more decimal digits. -/
def IsLiteral (n : List Char) : Prop :=
  ∃ ip fp : List Char, ip ≠ [] ∧ (∀ c ∈ ip, c ∈ decDigits) ∧ (∀ c ∈ fp, c ∈ decDigits) ∧
    (n = ip ∨ (fp ≠ [] ∧ n = ip ++ '.' :: fp))

/-- The library operation that the operator character `op` stands for. -/
def applyOp {V : Type} (A : FloatOps V) (op : Char) (x y : V) : V :=
  if op = '+' then A.add x y
  else if op = '-' then A.sub x y
  else if op = '*' then A.mul x y
  else if op = '/' then A.div x y
  else A.pow x y

/-- The outcome `r` is either out of fuel or the value `v` with the globals `st`. -/
def OrFuel {α : Type} (r : Res α) (v : α) (st : State) : Prop :=
  r = .fault .outOfFuel ∨ r = .ok v st

/-- Following the specification of Primary: the length of the longest valid numeric literal
at the start of `s`, that is decimal digits with at most one decimal point. -/
def specLiteralLen (s : List Char) : Nat :=
  let ip := s.takeWhile isdigit
  match s.drop ip.length with
  | '.' :: r => ip.length + 1 + (r.takeWhile isdigit).length
  | _ => ip.length

/-- Value of a decimal digit. -/
def digitVal (c : Char) : Nat := c.toNat - '0'.toNat

/-- Value of a string of decimal digits. -/
def natOfDigits (ds : List Char) : Nat := ds.foldl (fun n c => 10 * n + digitVal c) 0

/-- An exact `stof` for decimal literals without exponent: the digits at the start of `s`,
with the digits after a decimal point if there is one; no digit at all is the failure. -/
def ratStof (s : List Char) : Option ℚ :=
  let ip := s.takeWhile isdigit
  if ip = [] then none
  else
    match s.drop ip.length with
    | '.' :: r =>
      let fp := r.takeWhile isdigit
      some ((natOfDigits ip : ℚ) + (natOfDigits fp : ℚ) / (10 : ℚ) ^ fp.length)
    | _ => some (natOfDigits ip : ℚ)

/-- An exact `pow` for integer exponents (0 for the others). -/
def ratPow (a b : ℚ) : ℚ := if b.den = 1 then a ^ b.num else 0

/-- Exact arithmetic on the rationals: what `float` computes where nothing is rounded. It is
used to instantiate the theorems with numbers. -/
def ratOps : FloatOps ℚ :=
  { zero := 0, stof := ratStof, neg := fun a => -a, add := fun a b => a + b,
    sub := fun a b => a - b, mul := fun a b => a * b, div := fun a b => a / b, pow := ratPow }

end Calc

namespace Render

/-- The enumeration `Color`. -/
inductive Color where
  | Black | Red | Green | Orange | Blue | Purple | Cyan | White
  | DarkBlack | DarkRed | DarkGreen | DarkOrange | DarkBlue | DarkPurple | DarkCyan | DarkWhite
  deriving DecidableEq

/-- The enumerator `Color::Default`. -/
def Color.Default : Color := Color.White

/-- The enumeration `Attribute`. -/
inductive Attribute where
  | None | Bold | Underline | Inverse
  deriving DecidableEq

/-- The structure `Pixel`. -/
structure Pixel where
  glyph : Char
  color : Color
  att : Attribute
  deriving DecidableEq

/-- The type `PixelRow`, a vector of pixels. -/
abbrev PixelRow := List Pixel

/-- The static members of the class `Renderer`. -/
structure Renderer where
  mOldConsoleMode : Nat
  mContextWidth : Nat
  mContextHeight : Nat
  mBaseContext : List PixelRow
  mContext : List PixelRow
  deriving DecidableEq

/-- The method `Renderer::Submit(int x, int y, Pixel pixel)`. The coordinates are integers;
after the guard `x` and `y` are not negative, so the unsigned comparisons with the
dimensions are the comparisons of integers. The store `mContext[y][x] = pixel` outside a
vector is undefined behaviour and gives `none`. -/
def Submit (r : Renderer) (x y : Int) (pixel : Pixel) : Option Renderer :=
  if x < 0 ∨ (r.mContextWidth : Int) ≤ x ∨ y < 0 ∨ (r.mContextHeight : Int) ≤ y then some r
  else
    match r.mContext[y.toNat]? with
    | none => none
    | some row =>
      if x.toNat < row.length then
        some { r with mContext := r.mContext.set y.toNat (row.set x.toNat pixel) }
      else none

/-- The loop `for (Pixel p : row) Submit(x++, y, p);`. -/
def submitLoop (y : Int) : PixelRow → Renderer → Int → Option Renderer
  | [], r, _ => some r
  | p :: row, r, x => (Submit r x y p).bind fun r1 => submitLoop y row r1 (x + 1)

/-- The method `Renderer::Submit(int x, int y, PixelRow const& row)`. -/
def SubmitRow (r : Renderer) (x y : Int) (row : PixelRow) : Option Renderer :=
  if y < 0 ∨ (r.mContextHeight : Int) ≤ y then some r else submitLoop y row r x

/-- The method `Renderer::ResizeContext`. -/
def ResizeContext (r : Renderer) (width height : Nat) : Renderer :=
  { r with
    mBaseContext := List.replicate height (List.replicate width ⟨' ', Color.Default, Attribute.None⟩)
    mContext := List.replicate height (List.replicate width ⟨' ', Color.Default, Attribute.None⟩)
    mContextWidth := width
    mContextHeight := height }

/-- The context has `mContextHeight` rows of `mContextWidth` pixels each. -/
def WellSized (r : Renderer) : Prop :=
  r.mContext.length = r.mContextHeight ∧ ∀ row ∈ r.mContext, row.length = r.mContextWidth

/-- The pixel in column `x` of row `y` of a context, when there is one. -/
def cell (ctx : List PixelRow) (x y : Nat) : Option Pixel :=
  (ctx[y]?).bind fun row => row[x]?

end Render

namespace Calc

/-! ## Basic facts -/

variable {V : Type} (A : FloatOps V)

@[simp] theorem Res.bind_ok {α β : Type} (a : α) (st : State) (k : α → State → Res β) :
    (Res.ok a st).bind k = k a st := rfl

@[simp] theorem Res.bind_fault {α β : Type} (f : Fault) (k : α → State → Res β) :
    (Res.fault f : Res α).bind k = .fault f := rfl

theorem decDigits_isdigit {c : Char} (h : c ∈ decDigits) : isdigit c = true := by
  simp only [decDigits, String.toList, List.mem_cons, List.mem_singleton] at h
  rcases h with h | h | h | h | h | h | h | h | h | h | h <;> first | (subst h; decide) | simp at h

theorem decDigits_digitsDot {c : Char} (h : c ∈ decDigits) : c ∈ digitsDot := by
  simp only [decDigits, String.toList, List.mem_cons, List.mem_singleton] at h
  rcases h with h | h | h | h | h | h | h | h | h | h | h <;> first | (subst h; decide) | simp at h

theorem decDigits_ne {c d : Char} (h : c ∈ decDigits) (hd : d ∉ decDigits) : c ≠ d := by
  rintro rfl; exact hd h

theorem IsLiteral.cons {n : List Char} (h : IsLiteral n) :
    ∃ d rest, n = d :: rest ∧ d ∈ decDigits := by
  obtain ⟨ip, fp, hip, hd, -, hn⟩ := h
  obtain ⟨d, ip', rfl⟩ := List.exists_cons_of_ne_nil hip
  have hd0 : d ∈ decDigits := hd d (by simp)
  rcases hn with rfl | ⟨-, rfl⟩
  · exact ⟨d, ip', rfl, hd0⟩
  · exact ⟨d, ip' ++ '.' :: fp, by simp, hd0⟩

theorem IsLiteral.all_digitsDot {n : List Char} (h : IsLiteral n) : ∀ c ∈ n, c ∈ digitsDot := by
  obtain ⟨ip, fp, -, hd, hf, hn⟩ := h
  rcases hn with rfl | ⟨-, rfl⟩
  · exact fun c hc => decDigits_digitsDot (hd c hc)
  · intro c hc
    simp only [List.mem_append, List.mem_cons] at hc
    rcases hc with hc | rfl | hc
    · exact decDigits_digitsDot (hd c hc)
    · decide
    · exact decDigits_digitsDot (hf c hc)

theorem findFrom_all (chars : List Char) :
    ∀ (l : List Char) (k : Nat), (∀ c ∈ l, c ∈ chars) → findFrom chars l k = none
  | [], _, _ => rfl
  | c :: l, k, h => by
    have hc : c ∈ chars := h c (by simp)
    simp only [findFrom, hc, if_true]
    exact findFrom_all chars l (k + 1) (fun x hx => h x (by simp [hx]))

theorem findFrom_append (chars : List Char) :
    ∀ (l post : List Char) (k : Nat), (∀ c ∈ l, c ∈ chars) →
      findFrom chars (l ++ post) k = findFrom chars post (k + l.length)
  | [], _, _, _ => rfl
  | c :: l, post, k, h => by
    have hc : c ∈ chars := h c (by simp)
    have ih := findFrom_append chars l post (k + 1) (fun x hx => h x (by simp [hx]))
    simp only [List.cons_append, findFrom, hc, if_true, List.length_cons, List.append_eq, ih]
    congr 1
    omega

/-! ## The function `match` -/

theorem skipSpaces_stay (src : List Char) (n : Nat) (i : Int)
    (h : ¬ (0 ≤ i ∧ i < src.length ∧ src.getD i.toNat NUL = ' ')) : skipSpaces src n i = i := by
  cases n with
  | zero => rfl
  | succ n => simp only [skipSpaces, h, if_false]

theorem skipSpaces_spec (src : List Char) :
    ∀ (n i : Nat), i ≤ src.length → src.length ≤ i + n →
      ∃ j : Nat, skipSpaces src n (i : Int) = (j : Int) ∧ i ≤ j ∧ j ≤ src.length ∧
        (∀ k, i ≤ k → k < j → src[k]? = some ' ') ∧ src[j]? ≠ some ' ' := by
  intro n
  induction n with
  | zero =>
    intro i hi hn
    have : i = src.length := by omega
    subst this
    exact ⟨src.length, rfl, le_refl _, le_refl _, fun k h1 h2 => by omega, by simp⟩
  | succ n ih =>
    intro i hi hn
    by_cases hc : (0 : Int) ≤ (i : Int) ∧ (i : Int) < src.length ∧ src.getD (i : Int).toNat NUL = ' '
    · obtain ⟨-, hlt, hsp⟩ := hc
      have hlt' : i < src.length := by exact_mod_cast hlt
      simp only [Int.toNat_ofNat] at hsp
      obtain ⟨j, hj, hij, hjl, hall, hstop⟩ := ih (i + 1) hlt' (by omega)
      refine ⟨j, ?_, by omega, hjl, ?_, hstop⟩
      · have : skipSpaces src (n + 1) (i : Int) = skipSpaces src n ((i : Int) + 1) := by
          simp only [skipSpaces]
          rw [if_pos]
          exact ⟨by omega, hlt, by simpa using hsp⟩
        rw [this]
        exact_mod_cast hj
      · intro k hk1 hk2
        rcases Nat.eq_or_lt_of_le hk1 with rfl | hk
        · rw [List.getD_eq_getElem?_getD] at hsp
          rw [List.getElem?_eq_getElem hlt'] at hsp ⊢
          simpa using hsp
        · exact hall k hk hk2
    · refine ⟨i, skipSpaces_stay src _ _ hc, le_refl _, hi, fun k h1 h2 => by omega, ?_⟩
      intro hsp
      apply hc
      have hlt : i < src.length := by
        by_contra hge
        rw [List.getElem?_eq_none (by omega)] at hsp
        exact absurd hsp (by simp)
      refine ⟨by omega, by exact_mod_cast hlt, ?_⟩
      simp only [Int.toNat_ofNat]
      rw [List.getD_eq_getElem?_getD, hsp]
      rfl

/-- The bound on the iterations of the skipping loop is never reached: where `skipSpaces`
stops, the condition of the `while` is false. -/
theorem skipSpaces_exit (src : List Char) (i : Int) :
    ¬ (0 ≤ skipSpaces src src.length i ∧ skipSpaces src src.length i < src.length ∧
      src.getD (skipSpaces src src.length i).toNat NUL = ' ') := by
  by_cases hi : 0 ≤ i ∧ i < src.length
  · obtain ⟨k, rfl⟩ := Int.eq_ofNat_of_zero_le hi.1
    have hk : k ≤ src.length := by have := hi.2; omega
    obtain ⟨j, hj, -, -, -, hstop⟩ := skipSpaces_spec src src.length k hk (by omega)
    rw [hj]
    rintro ⟨-, hlt, hsp⟩
    have hlt2 : j < src.length := by exact_mod_cast hlt
    apply hstop
    simp only [Int.toNat_ofNat] at hsp
    rw [List.getD_eq_getElem?_getD, List.getElem?_eq_getElem hlt2] at hsp
    rw [List.getElem?_eq_getElem hlt2]
    simpa using hsp
  · have hstay : skipSpaces src src.length i = i :=
      skipSpaces_stay src _ i (fun h => hi ⟨h.1, h.2.1⟩)
    rw [hstay]
    exact fun h => hi ⟨h.1, h.2.1⟩

theorem readChar_of_charAt {src : List Char} {i : Int} {d : Char}
    (h : charAt src i = some d) : readChar src i = some d := by
  unfold readChar
  split
  · rename_i hi
    subst hi
    exact absurd h (by simp [charAt])
  · exact h

theorem readChar_minus_one (src : List Char) : readChar src (-1) = some NUL := by
  simp [readChar]

theorem matchCh_minus_one (src : List Char) (c : Char) (e : Bool) (hc : c ≠ NUL) :
    matchCh src c ⟨-1, e⟩ = .ok false ⟨-1, e⟩ := by
  have h1 : skipSpaces src src.length (-1) = -1 := skipSpaces_stay src _ (-1) (by omega)
  simp only [matchCh, h1, readChar_minus_one]
  rw [if_pos (Ne.symm hc)]

theorem matchCh_at (src : List Char) (c : Char) (i : Int) (e : Bool) (d : Char)
    (hch : charAt src i = some d) (hd : d ≠ ' ') :
    matchCh src c ⟨i, e⟩ =
      if d ≠ c then .ok false ⟨i, e⟩ else .ok (decide (i + 1 ≠ 0)) ⟨i + 1, e⟩ := by
  have h1 : skipSpaces src src.length i = i := by
    apply skipSpaces_stay
    rintro ⟨h0, hlt, hsp⟩
    simp only [charAt, not_lt.mpr h0, hlt, if_true, if_false, Option.some.injEq] at hch
    exact hd (hch ▸ hsp)
  simp only [matchCh, h1, readChar_of_charAt hch]

theorem charAt_at (src pre : List Char) (d : Char) (post : List Char)
    (h : src = pre ++ d :: post) : charAt src (pre.length : Int) = some d := by
  subst h
  have h1 : ¬ ((pre.length : Int) < 0) := by omega
  have h2 : (pre.length : Int) < ((pre ++ d :: post).length : Nat) := by
    simp only [List.length_append, List.length_cons]; omega
  simp only [charAt, h1, h2, if_true, if_false, Int.toNat_ofNat, Option.some.injEq]
  rw [List.getD_eq_getElem?_getD, List.getElem?_append_right (le_refl _)]
  simp

theorem matchCh_miss (src pre : List Char) (d : Char) (post : List Char) (c : Char) (e : Bool)
    (h : src = pre ++ d :: post) (hd : d ≠ ' ') (hc : d ≠ c) :
    matchCh src c ⟨(pre.length : Int), e⟩ = .ok false ⟨(pre.length : Int), e⟩ := by
  rw [matchCh_at src c _ e d (charAt_at src pre d post h) hd, if_pos hc]

theorem matchCh_hit (src pre : List Char) (d : Char) (post : List Char) (e : Bool)
    (h : src = pre ++ d :: post) (hd : d ≠ ' ') :
    matchCh src d ⟨(pre.length : Int), e⟩ = .ok true ⟨((pre ++ [d]).length : Int), e⟩ := by
  rw [matchCh_at src d _ e d (charAt_at src pre d post h) hd, if_neg (by simp)]
  have : decide ((pre.length : Int) + 1 ≠ 0) = true := by
    simp only [ne_eq, decide_eq_true_eq]; omega
  simp [this]

theorem charAt_end (src : List Char) : charAt src (src.length : Int) = some NUL := by
  simp [charAt]

theorem matchCh_end (src : List Char) (c : Char) (e : Bool) (hc : c ≠ NUL) :
    matchCh src c ⟨(src.length : Int), e⟩ = .ok false ⟨(src.length : Int), e⟩ := by
  rw [matchCh_at src c _ e NUL (charAt_end src) (by decide), if_pos (Ne.symm hc)]

theorem matchCh_last (a : List Char) (op c : Char) (e : Bool) (hop : op ≠ ' ') :
    matchCh (a ++ [op]) c ⟨(a.length : Int), e⟩ =
      if op ≠ c then .ok false ⟨(a.length : Int), e⟩
      else .ok true ⟨((a ++ [op]).length : Int), e⟩ := by
  by_cases h : op = c
  · subst h
    rw [matchCh_hit (a ++ [op]) a op [] e rfl hop]
    simp
  · rw [matchCh_miss (a ++ [op]) a op [] c e rfl hop h, if_pos h]

/-! ## Literals -/

theorem start_eq : start = ⟨(([] : List Char).length : Int), false⟩ := rfl

theorem primary_lit_mid (src pre lit : List Char) (d : Char) (post : List Char)
    (h : src = pre ++ lit ++ d :: post) (hl : IsLiteral lit) (hd : d ∉ digitsDot) (v : V)
    (hv : A.stof (lit ++ d :: post) = some v) (fuel : Nat) (e : Bool) :
    primary A src (fuel + 1) ⟨(pre.length : Int), e⟩ =
      .ok v ⟨((pre ++ lit).length : Int), e⟩ := by
  obtain ⟨x, rest, rfl, hx⟩ := hl.cons
  have hsrc : src = pre ++ x :: (rest ++ d :: post) := by simp [h]
  have hm : matchCh src '(' ⟨(pre.length : Int), e⟩ = .ok false ⟨(pre.length : Int), e⟩ :=
    matchCh_miss src pre x _ '(' e hsrc (decDigits_ne hx (by decide)) (decDigits_ne hx (by decide))
  have hc : readChar src (pre.length : Int) = some x :=
    readChar_of_charAt (charAt_at src pre x _ hsrc)
  have hdrop : src.drop pre.length = (x :: rest) ++ d :: post := by
    rw [h, List.append_assoc, List.drop_left]
  have hf : find_first_not_of src digitsDot pre.length = some (pre ++ x :: rest).length := by
    simp only [find_first_not_of, hdrop]
    rw [findFrom_append digitsDot (x :: rest) (d :: post) pre.length hl.all_digitsDot]
    simp [findFrom, hd]
  simp only [primary, hm, Res.bind_ok, hc, decDigits_isdigit hx, Int.toNat_ofNat, hdrop, hv,
    hf, intOfPos]
  simp

theorem primary_lit_end (src pre lit : List Char) (h : src = pre ++ lit) (hl : IsLiteral lit)
    (v : V) (hv : A.stof lit = some v) (fuel : Nat) (e : Bool) :
    primary A src (fuel + 1) ⟨(pre.length : Int), e⟩ = .ok v ⟨-1, e⟩ := by
  obtain ⟨x, rest, rfl, hx⟩ := hl.cons
  have hsrc : src = pre ++ x :: (rest ++ []) := by simp [h]
  have hm : matchCh src '(' ⟨(pre.length : Int), e⟩ = .ok false ⟨(pre.length : Int), e⟩ :=
    matchCh_miss src pre x _ '(' e hsrc (decDigits_ne hx (by decide)) (decDigits_ne hx (by decide))
  have hc : readChar src (pre.length : Int) = some x :=
    readChar_of_charAt (charAt_at src pre x _ hsrc)
  have hdrop : src.drop pre.length = x :: rest := by
    rw [h, List.drop_left]
  have hf : find_first_not_of src digitsDot pre.length = none := by
    simp only [find_first_not_of, hdrop]
    exact findFrom_all _ _ _ hl.all_digitsDot
  simp only [primary, hm, Res.bind_ok, hc, decDigits_isdigit hx, Int.toNat_ofNat, hdrop, hv,
    hf, intOfPos]
  simp

theorem unary_lit (src pre lit post : List Char) (h : src = pre ++ lit ++ post)
    (hl : IsLiteral lit) (fuel : Nat) (e : Bool) :
    unary A src (fuel + 1) ⟨(pre.length : Int), e⟩ =
      primary A src fuel ⟨(pre.length : Int), e⟩ := by
  obtain ⟨x, rest, rfl, hx⟩ := hl.cons
  have hsrc : src = pre ++ x :: (rest ++ post) := by simp [h]
  have hm : matchCh src '-' ⟨(pre.length : Int), e⟩ = .ok false ⟨(pre.length : Int), e⟩ :=
    matchCh_miss src pre x _ '-' e hsrc (decDigits_ne hx (by decide)) (decDigits_ne hx (by decide))
  simp only [unary, hm, Res.bind_ok]
  simp

theorem expo_lit_mid (src pre lit : List Char) (d : Char) (post : List Char)
    (h : src = pre ++ lit ++ d :: post) (hl : IsLiteral lit) (hd : d ∉ digitsDot)
    (hsp : d ≠ ' ') (hpow : d ≠ '^') (v : V)
    (hv : A.stof (lit ++ d :: post) = some v) (fuel : Nat) (e : Bool) :
    expo A src (fuel + 3) ⟨(pre.length : Int), e⟩ =
      .ok v ⟨((pre ++ lit).length : Int), e⟩ := by
  have hu := unary_lit A src pre lit (d :: post) h hl (fuel + 1) e
  rw [primary_lit_mid A src pre lit d post h hl hd v hv fuel e] at hu
  simp only [expo, hu, Res.bind_ok, matchCh_miss src (pre ++ lit) d post '^' e h hsp hpow]
  simp

theorem expo_lit_end (src pre lit : List Char) (h : src = pre ++ lit) (hl : IsLiteral lit)
    (v : V) (hv : A.stof lit = some v) (fuel : Nat) (e : Bool) :
    expo A src (fuel + 3) ⟨(pre.length : Int), e⟩ = .ok v ⟨-1, e⟩ := by
  have hu := unary_lit A src pre lit [] (by simp [h]) hl (fuel + 1) e
  rw [primary_lit_end A src pre lit h hl v hv fuel e] at hu
  rw [expo, hu, Res.bind_ok, matchCh_minus_one src '^' e (by decide), Res.bind_ok]
  simp

/-! ## After a literal that ends the line

The cursor is `-1`; every `match` reads the zero byte there and fails, so the loops end. -/

theorem factorMul_done (src : List Char) (fuel : Nat) (val : V) (e : Bool) :
    factorMul A src (fuel + 1) val ⟨-1, e⟩ = .ok val ⟨-1, e⟩ := by
  rw [factorMul, matchCh_minus_one src '*' e (by decide), Res.bind_ok]
  simp

theorem factorDiv_done (src : List Char) (fuel : Nat) (val : V) (e : Bool) :
    factorDiv A src (fuel + 1) val ⟨-1, e⟩ = .ok val ⟨-1, e⟩ := by
  rw [factorDiv, matchCh_minus_one src '/' e (by decide), Res.bind_ok]
  simp

theorem termAdd_done (src : List Char) (fuel : Nat) (val : V) (e : Bool) :
    termAdd A src (fuel + 1) val ⟨-1, e⟩ = .ok val ⟨-1, e⟩ := by
  rw [termAdd, matchCh_minus_one src '+' e (by decide), Res.bind_ok]
  simp

theorem termSub_done (src : List Char) (fuel : Nat) (val : V) (e : Bool) :
    termSub A src (fuel + 1) val ⟨-1, e⟩ = .ok val ⟨-1, e⟩ := by
  rw [termSub, matchCh_minus_one src '-' e (by decide), Res.bind_ok]
  simp

theorem factor_tail (src : List Char) (fuel : Nat) (st : State) (v : V) (e : Bool)
    (he : expo A src (fuel + 1) st = .ok v ⟨-1, e⟩) :
    factor A src (fuel + 2) st = .ok v ⟨-1, e⟩ := by
  rw [factor, he, Res.bind_ok, factorMul_done, Res.bind_ok, factorDiv_done]

theorem term_tail (src : List Char) (fuel : Nat) (st : State) (v : V) (e : Bool)
    (hf : factor A src (fuel + 1) st = .ok v ⟨-1, e⟩) :
    term A src (fuel + 2) st = .ok v ⟨-1, e⟩ := by
  rw [term, hf, Res.bind_ok, termAdd_done, Res.bind_ok, termSub_done]

theorem factor_lit_end (src pre lit : List Char) (h : src = pre ++ lit) (hl : IsLiteral lit)
    (v : V) (hv : A.stof lit = some v) (fuel : Nat) (e : Bool) :
    factor A src (fuel + 4) ⟨(pre.length : Int), e⟩ = .ok v ⟨-1, e⟩ :=
  factor_tail A src (fuel + 2) _ v e (expo_lit_end A src pre lit h hl v hv fuel e)

theorem IsLiteral.last {n : List Char} (h : IsLiteral n) :
    ∃ init last, n = init ++ [last] ∧ last ∈ decDigits := by
  obtain ⟨ip, fp, hip, hd, hf, hn⟩ := h
  rcases hn with hn | ⟨hfp, hn⟩
  · refine ⟨ip.dropLast, ip.getLast hip, ?_, hd _ (List.getLast_mem hip)⟩
    rw [hn, List.dropLast_append_getLast hip]
  · refine ⟨ip ++ '.' :: fp.dropLast, fp.getLast hfp, ?_, hf _ (List.getLast_mem hfp)⟩
    rw [hn, List.append_assoc, List.cons_append, List.dropLast_append_getLast hfp]

theorem iterate_neg (hneg : ∀ y : V, A.neg (A.neg y) = y) (x : V) :
    ∀ k : Nat, A.neg^[k] x = if k % 2 = 0 then x else A.neg x := by
  intro k
  induction k with
  | zero => rfl
  | succ k ih =>
    rw [Function.iterate_succ_apply', ih]
    rcases Nat.mod_two_eq_zero_or_one k with h | h
    · have h2 : (k + 1) % 2 = 1 := by omega
      simp [h, h2]
    · have h2 : (k + 1) % 2 = 0 := by omega
      simp [h, h2, hneg]

/-! ## The end of the input -/

theorem primary_end_ok (src : List Char) (n : Nat) (e : Bool) :
    primary A src (n + 1) ⟨(src.length : Int), e⟩ = .ok A.zero (errorState src) := by
  rw [primary, matchCh_end src '(' e (by decide), Res.bind_ok]
  simp only [Bool.false_eq_true, if_false, readChar_of_charAt (charAt_end src)]
  rfl

theorem unary_end_ok (src : List Char) (n : Nat) (e : Bool) :
    unary A src (n + 2) ⟨(src.length : Int), e⟩ = .ok A.zero (errorState src) := by
  rw [unary, matchCh_end src '-' e (by decide), Res.bind_ok]
  simp only [Bool.false_eq_true, if_false]
  exact primary_end_ok A src n e

theorem unary_end (src : List Char) (n : Nat) (e : Bool) :
    OrFuel (unary A src n ⟨(src.length : Int), e⟩) A.zero (errorState src) := by
  rcases n with _ | _ | n
  · exact Or.inl rfl
  · left
    rw [unary, matchCh_end src '-' e (by decide), Res.bind_ok]
    rfl
  · exact Or.inr (unary_end_ok A src n e)

theorem errorState_snoc (a : List Char) (op : Char) :
    errorState (a ++ [op]) = ⟨(a.length : Int), true⟩ := by
  simp [errorState]

theorem expo_end (a : List Char) (op : Char) (hop : op ≠ ' ') (hpow : op ≠ '^') (n : Nat)
    (e : Bool) :
    OrFuel (expo A (a ++ [op]) n ⟨((a ++ [op]).length : Int), e⟩) A.zero
      ⟨(a.length : Int), true⟩ := by
  cases n with
  | zero => exact Or.inl rfl
  | succ n =>
    rw [expo]
    rcases unary_end A (a ++ [op]) n e with h | h
    · rw [h]; exact Or.inl rfl
    · rw [h, Res.bind_ok, errorState_snoc, matchCh_last a op '^' true hop, if_pos hpow,
        Res.bind_ok]
      right
      simp

theorem factor_end (a : List Char) (op : Char) (hop : op ≠ ' ') (hpow : op ≠ '^')
    (hmul : op ≠ '*') (hdiv : op ≠ '/') (n : Nat) (e : Bool) :
    OrFuel (factor A (a ++ [op]) n ⟨((a ++ [op]).length : Int), e⟩) A.zero
      ⟨(a.length : Int), true⟩ := by
  cases n with
  | zero => exact Or.inl rfl
  | succ n =>
    rw [factor]
    rcases expo_end A a op hop hpow n e with h | h
    · rw [h]; exact Or.inl rfl
    · rw [h, Res.bind_ok]
      cases n with
      | zero => exact Or.inl rfl
      | succ n =>
        rw [factorMul, matchCh_last a op '*' true hop, if_pos hmul, Res.bind_ok]
        simp only [Bool.false_eq_true, if_false, Res.bind_ok]
        rw [factorDiv, matchCh_last a op '/' true hop, if_pos hdiv, Res.bind_ok]
        right
        simp

theorem expo_lit_last (a : List Char) (hl : IsLiteral a) (op : Char) (hd : op ∉ digitsDot)
    (hop : op ≠ ' ') (hpow : op ≠ '^') (v : V) (hv : A.stof (a ++ [op]) = some v) (n : Nat) :
    OrFuel (expo A (a ++ [op]) n start) v ⟨(a.length : Int), false⟩ := by
  rcases n with _ | _ | _ | n
  · exact Or.inl rfl
  · exact Or.inl rfl
  · left
    rw [expo, start_eq, unary_lit A (a ++ [op]) [] a [op] (by simp) hl 0 false]
    rfl
  · right
    have := expo_lit_mid A (a ++ [op]) [] a op [] (by simp) hl hd hop hpow v hv n false
    simpa using this

theorem termAdd_plus_loop (a : List Char) (n : Nat) :
    ∀ (val : V) (e : Bool),
      termAdd A (a ++ ['+']) n val ⟨(a.length : Int), e⟩ = .fault .outOfFuel := by
  induction n with
  | zero => intro val e; rfl
  | succ n ih =>
    intro val e
    rw [termAdd, matchCh_last a '+' '+' e (by decide), if_neg (by simp), Res.bind_ok]
    simp only [if_true]
    rcases factor_end A a '+' (by decide) (by decide) (by decide) (by decide) n e with h | h
    · rw [h]; rfl
    · rw [h, Res.bind_ok]; exact ih _ _

theorem termSub_minus_loop (a : List Char) (n : Nat) :
    ∀ (val : V) (e : Bool),
      termSub A (a ++ ['-']) n val ⟨(a.length : Int), e⟩ = .fault .outOfFuel := by
  induction n with
  | zero => intro val e; rfl
  | succ n ih =>
    intro val e
    rw [termSub, matchCh_last a '-' '-' e (by decide), if_neg (by simp), Res.bind_ok]
    simp only [if_true]
    rcases factor_end A a '-' (by decide) (by decide) (by decide) (by decide) n e with h | h
    · rw [h]; rfl
    · rw [h, Res.bind_ok]; exact ih _ _

theorem factorMul_star_loop (a : List Char) (n : Nat) :
    ∀ (val : V) (e : Bool),
      factorMul A (a ++ ['*']) n val ⟨(a.length : Int), e⟩ = .fault .outOfFuel := by
  induction n with
  | zero => intro val e; rfl
  | succ n ih =>
    intro val e
    rw [factorMul, matchCh_last a '*' '*' e (by decide), if_neg (by simp), Res.bind_ok]
    simp only [if_true]
    rcases expo_end A a '*' (by decide) (by decide) n e with h | h
    · rw [h]; rfl
    · rw [h, Res.bind_ok]; exact ih _ _

theorem factorDiv_slash_loop (a : List Char) (n : Nat) :
    ∀ (val : V) (e : Bool),
      factorDiv A (a ++ ['/']) n val ⟨(a.length : Int), e⟩ = .fault .outOfFuel := by
  induction n with
  | zero => intro val e; rfl
  | succ n ih =>
    intro val e
    rw [factorDiv, matchCh_last a '/' '/' e (by decide), if_neg (by simp), Res.bind_ok]
    simp only [if_true]
    rcases expo_end A a '/' (by decide) (by decide) n e with h | h
    · rw [h]; rfl
    · rw [h, Res.bind_ok]; exact ih _ _

theorem factor_lit_last (a : List Char) (hl : IsLiteral a) (op : Char) (hd : op ∉ digitsDot)
    (hop : op ≠ ' ') (hpow : op ≠ '^') (hmul : op ≠ '*') (hdiv : op ≠ '/') (v : V)
    (hv : A.stof (a ++ [op]) = some v) (n : Nat) :
    OrFuel (factor A (a ++ [op]) n start) v ⟨(a.length : Int), false⟩ := by
  cases n with
  | zero => exact Or.inl rfl
  | succ n =>
    rw [factor]
    rcases expo_lit_last A a hl op hd hop hpow v hv n with h | h
    · rw [h]; exact Or.inl rfl
    · rw [h, Res.bind_ok]
      cases n with
      | zero => exact Or.inl rfl
      | succ n =>
        rw [factorMul, matchCh_last a op '*' false hop, if_pos hmul, Res.bind_ok]
        simp only [Bool.false_eq_true, if_false, Res.bind_ok]
        rw [factorDiv, matchCh_last a op '/' false hop, if_pos hdiv, Res.bind_ok]
        right
        simp

theorem unary_minus_lit (v : List Char) (hl : IsLiteral v) (x : V) (hx : A.stof v = some x)
    (fuel : Nat) (e : Bool) :
    ∀ (k : Nat) (pre : List Char),
      unary A (pre ++ List.replicate k '-' ++ v) (fuel + k + 2) ⟨(pre.length : Int), e⟩ =
        .ok (A.neg^[k] x) ⟨-1, e⟩ := by
  intro k
  induction k with
  | zero =>
    intro pre
    have h : pre ++ List.replicate 0 '-' ++ v = pre ++ v := by simp
    rw [h, unary_lit A (pre ++ v) pre v [] (by simp) hl (fuel + 1) e,
      primary_lit_end A (pre ++ v) pre v rfl hl x hx fuel e]
    rfl
  | succ k ih =>
    intro pre
    have h : pre ++ List.replicate (k + 1) '-' ++ v =
        (pre ++ ['-']) ++ List.replicate k '-' ++ v := by
      simp [List.replicate_succ]
    have hm : matchCh (pre ++ List.replicate (k + 1) '-' ++ v) '-' ⟨(pre.length : Int), e⟩ =
        .ok true ⟨((pre ++ ['-']).length : Int), e⟩ :=
      matchCh_hit _ pre '-' (List.replicate k '-' ++ v) e (by simp [List.replicate_succ])
        (by decide)
    have hfuel : fuel + (k + 1) + 2 = (fuel + k + 2) + 1 := by omega
    rw [hfuel, unary, hm, Res.bind_ok]
    simp only [if_true]
    rw [h, ih (pre ++ ['-']), Res.bind_ok, Function.iterate_succ_apply']

theorem factor_plus_error (n : Nat) (st : State) (hst : st = start ∨ st = ⟨1, true⟩) :
    factor A "+".toList n st = .fault .outOfFuel ∨
      factor A "+".toList n st = .ok A.zero ⟨0, true⟩ := by
  rcases hst with rfl | rfl <;>
    rcases n with _ | _ | _ | _ | n <;> first | exact Or.inl rfl | exact Or.inr rfl

theorem termAdd_plus_diverges :
    ∀ (n : Nat) (val : V), termAdd A "+".toList n val ⟨0, true⟩ = .fault .outOfFuel := by
  intro n
  induction n with
  | zero => intro val; rfl
  | succ n ih =>
    intro val
    have hm : matchCh "+".toList '+' ⟨0, true⟩ = .ok true ⟨1, true⟩ := by decide
    simp only [termAdd, hm, Res.bind_ok, if_true]
    rcases factor_plus_error A n ⟨1, true⟩ (Or.inr rfl) with h | h
    · rw [h]; rfl
    · rw [h, Res.bind_ok]; exact ih _

/-! ## The claims of the specification -/

/-- C1: for every numeric literal `n` (with `v` the value `stof` converts it to), the
evaluation of the one-token input `n`, started by `term` with cursor 0 and error flag
false, returns `v` and leaves the error flag unset, for every fuel from 5 on. (The cursor is
`-1` at the end: that is C7.) -/
theorem term_literal (n : List Char) (h : IsLiteral n) (v : V)
    (hv : A.stof n = some v) (fuel : Nat) :
    term A n (fuel + 5) start = .ok v ⟨-1, false⟩ :=
  term_tail A n (fuel + 3) start v false
    (factor_lit_end A n [] n rfl h v hv fuel false)

/-- C2: multiplication binds tighter than addition. For all numeric literals `a`, `b`, `c`
(with `va`, `vb`, `vc` the values `stof` reads at them), the evaluation of `a+b*c` (the
specification names `2+3*4`) returns `a + (b * c)` with the error flag unset, for every fuel
from 7 on. -/
theorem term_add_mul (a b c : List Char) (ha : IsLiteral a) (hb : IsLiteral b)
    (hc : IsLiteral c) (va vb vc : V) (hva : A.stof (a ++ '+' :: b ++ '*' :: c) = some va)
    (hvb : A.stof (b ++ '*' :: c) = some vb) (hvc : A.stof c = some vc) (fuel : Nat) :
    term A (a ++ '+' :: b ++ '*' :: c) (fuel + 7) start =
      .ok (A.add va (A.mul vb vc)) ⟨-1, false⟩ := by
  generalize hsrc : a ++ '+' :: b ++ '*' :: c = src
  have h1 : src = [] ++ a ++ '+' :: (b ++ '*' :: c) := by simp [← hsrc]
  have h2 : src = (a ++ ['+']) ++ b ++ '*' :: c := by simp [← hsrc]
  have h3 : src = (a ++ ['+'] ++ b ++ ['*']) ++ c := by simp [← hsrc]
  have e1 : expo A src (fuel + 5) start = .ok va ⟨(a.length : Int), false⟩ :=
    expo_lit_mid A src [] a '+' _ h1 ha (by decide) (by decide) (by decide) va
      (by simpa using hva) (fuel + 2) false
  have e2 : expo A src (fuel + 4) ⟨((a ++ ['+']).length : Int), false⟩ =
      .ok vb ⟨((a ++ ['+'] ++ b).length : Int), false⟩ :=
    expo_lit_mid A src _ b '*' _ h2 hb (by decide) (by decide) (by decide) vb hvb (fuel + 1) false
  have e3 : expo A src (fuel + 3) ⟨((a ++ ['+'] ++ b ++ ['*']).length : Int), false⟩ =
      .ok vc ⟨-1, false⟩ :=
    expo_lit_end A src _ c h3 hc vc hvc fuel false
  have x1 : matchCh src '*' ⟨(a.length : Int), false⟩ = .ok false ⟨(a.length : Int), false⟩ :=
    matchCh_miss src a '+' _ '*' false (by simpa using h1) (by decide) (by decide)
  have x2 : matchCh src '/' ⟨(a.length : Int), false⟩ = .ok false ⟨(a.length : Int), false⟩ :=
    matchCh_miss src a '+' _ '/' false (by simpa using h1) (by decide) (by decide)
  have x3 : matchCh src '+' ⟨(a.length : Int), false⟩ =
      .ok true ⟨((a ++ ['+']).length : Int), false⟩ :=
    matchCh_hit src a '+' _ false (by simpa using h1) (by decide)
  have x4 : matchCh src '*' ⟨((a ++ ['+'] ++ b).length : Int), false⟩ =
      .ok true ⟨((a ++ ['+'] ++ b ++ ['*']).length : Int), false⟩ :=
    matchCh_hit src _ '*' _ false h2 (by decide)
  have f1 : factor A src (fuel + 6) start = .ok va ⟨(a.length : Int), false⟩ := by
    rw [factor, e1, Res.bind_ok, factorMul, x1, Res.bind_ok]
    simp only [Bool.false_eq_true, if_false, Res.bind_ok]
    rw [factorDiv, x2, Res.bind_ok]
    simp
  have f2 : factor A src (fuel + 5) ⟨((a ++ ['+']).length : Int), false⟩ =
      .ok (A.mul vb vc) ⟨-1, false⟩ := by
    rw [factor, e2, Res.bind_ok, factorMul, x4, Res.bind_ok]
    simp only [if_true, e3, Res.bind_ok]
    rw [factorMul_done, Res.bind_ok, factorDiv_done]
  rw [term, f1, Res.bind_ok, termAdd, x3, Res.bind_ok]
  simp only [if_true, f2, Res.bind_ok]
  rw [termAdd_done, Res.bind_ok, termSub_done]

/-- C3: parentheses override precedence. For all numeric literals `a`, `b`, `c` (with
`va`, `vb`, `vc` the values `stof` reads at them), the evaluation of `(a+b)*c` (the
specification names `(2+3)*4`) returns `(a + b) * c` with the error flag unset, for every
fuel from 11 on. -/
theorem term_paren_mul (a b c : List Char) (ha : IsLiteral a) (hb : IsLiteral b)
    (hc : IsLiteral c) (va vb vc : V)
    (hva : A.stof (a ++ '+' :: b ++ ')' :: '*' :: c) = some va)
    (hvb : A.stof (b ++ ')' :: '*' :: c) = some vb) (hvc : A.stof c = some vc) (fuel : Nat) :
    term A ('(' :: a ++ '+' :: b ++ ')' :: '*' :: c) (fuel + 11) start =
      .ok (A.mul (A.add va vb) vc) ⟨-1, false⟩ := by
  generalize hsrc : '(' :: a ++ '+' :: b ++ ')' :: '*' :: c = src
  have h0 : src = [] ++ '(' :: (a ++ '+' :: (b ++ ')' :: '*' :: c)) := by simp [← hsrc]
  have h1 : src = ['('] ++ a ++ '+' :: (b ++ ')' :: '*' :: c) := by simp [← hsrc]
  have h2 : src = (['('] ++ a ++ ['+']) ++ b ++ ')' :: ('*' :: c) := by simp [← hsrc]
  have h3 : src = (['('] ++ a ++ ['+'] ++ b ++ [')']) ++ '*' :: c := by simp [← hsrc]
  have h4 : src = (['('] ++ a ++ ['+'] ++ b ++ [')'] ++ ['*']) ++ c := by simp [← hsrc]
  have e1 : expo A src (fuel + 4) ⟨((['('] : List Char).length : Int), false⟩ =
      .ok va ⟨((['('] ++ a).length : Int), false⟩ :=
    expo_lit_mid A src _ a '+' _ h1 ha (by decide) (by decide) (by decide) va
      (by simpa using hva) (fuel + 1) false
  have e2 : expo A src (fuel + 3) ⟨((['('] ++ a ++ ['+']).length : Int), false⟩ =
      .ok vb ⟨((['('] ++ a ++ ['+'] ++ b).length : Int), false⟩ :=
    expo_lit_mid A src _ b ')' _ h2 hb (by decide) (by decide) (by decide) vb
      (by simpa using hvb) fuel false
  have e3 : expo A src (fuel + 8)
      ⟨((['('] ++ a ++ ['+'] ++ b ++ [')'] ++ ['*']).length : Int), false⟩ =
      .ok vc ⟨-1, false⟩ :=
    expo_lit_end A src _ c h4 hc vc hvc (fuel + 5) false
  have m0 : matchCh src '-' start = .ok false start :=
    matchCh_miss src [] '(' _ '-' false h0 (by decide) (by decide)
  have m1 : matchCh src '(' start = .ok true ⟨((['('] : List Char).length : Int), false⟩ :=
    matchCh_hit src [] '(' _ false h0 (by decide)
  have x1 : ∀ k : Char, k ≠ '+' → matchCh src k ⟨((['('] ++ a).length : Int), false⟩ =
      .ok false ⟨((['('] ++ a).length : Int), false⟩ := fun k hk =>
    matchCh_miss src _ '+' _ k false h1 (by decide) (Ne.symm hk)
  have x2 : matchCh src '+' ⟨((['('] ++ a).length : Int), false⟩ =
      .ok true ⟨((['('] ++ a ++ ['+']).length : Int), false⟩ :=
    matchCh_hit src _ '+' _ false h1 (by decide)
  have y1 : ∀ k : Char, k ≠ ')' → matchCh src k ⟨((['('] ++ a ++ ['+'] ++ b).length : Int), false⟩ =
      .ok false ⟨((['('] ++ a ++ ['+'] ++ b).length : Int), false⟩ := fun k hk =>
    matchCh_miss src _ ')' _ k false h2 (by decide) (Ne.symm hk)
  have y2 : matchCh src ')' ⟨((['('] ++ a ++ ['+'] ++ b).length : Int), false⟩ =
      .ok true ⟨((['('] ++ a ++ ['+'] ++ b ++ [')']).length : Int), false⟩ :=
    matchCh_hit src _ ')' _ false h2 (by decide)
  have z1 : matchCh src '^' ⟨((['('] ++ a ++ ['+'] ++ b ++ [')']).length : Int), false⟩ =
      .ok false ⟨((['('] ++ a ++ ['+'] ++ b ++ [')']).length : Int), false⟩ :=
    matchCh_miss src _ '*' _ '^' false h3 (by decide) (by decide)
  have z2 : matchCh src '*' ⟨((['('] ++ a ++ ['+'] ++ b ++ [')']).length : Int), false⟩ =
      .ok true ⟨((['('] ++ a ++ ['+'] ++ b ++ [')'] ++ ['*']).length : Int), false⟩ :=
    matchCh_hit src _ '*' _ false h3 (by decide)
  have f1 : factor A src (fuel + 5) ⟨((['('] : List Char).length : Int), false⟩ =
      .ok va ⟨((['('] ++ a).length : Int), false⟩ := by
    rw [factor, e1, Res.bind_ok, factorMul, x1 '*' (by decide), Res.bind_ok]
    simp only [Bool.false_eq_true, if_false, Res.bind_ok]
    rw [factorDiv, x1 '/' (by decide), Res.bind_ok]
    simp
  have f2 : factor A src (fuel + 4) ⟨((['('] ++ a ++ ['+']).length : Int), false⟩ =
      .ok vb ⟨((['('] ++ a ++ ['+'] ++ b).length : Int), false⟩ := by
    rw [factor, e2, Res.bind_ok, factorMul, y1 '*' (by decide), Res.bind_ok]
    simp only [Bool.false_eq_true, if_false, Res.bind_ok]
    rw [factorDiv, y1 '/' (by decide), Res.bind_ok]
    simp
  have t1 : term A src (fuel + 6) ⟨((['('] : List Char).length : Int), false⟩ =
      .ok (A.add va vb) ⟨((['('] ++ a ++ ['+'] ++ b).length : Int), false⟩ := by
    rw [term, f1, Res.bind_ok, termAdd, x2, Res.bind_ok]
    simp only [if_true, f2, Res.bind_ok]
    rw [termAdd, y1 '+' (by decide), Res.bind_ok]
    simp only [Bool.false_eq_true, if_false, Res.bind_ok]
    rw [termSub, y1 '-' (by decide), Res.bind_ok]
    simp
  have p1 : primary A src (fuel + 7) start =
      .ok (A.add va vb) ⟨((['('] ++ a ++ ['+'] ++ b ++ [')']).length : Int), false⟩ := by
    rw [primary, m1, Res.bind_ok]
    simp only [if_true, t1, Res.bind_ok, y2]
    simp
  have u1 : unary A src (fuel + 8) start =
      .ok (A.add va vb) ⟨((['('] ++ a ++ ['+'] ++ b ++ [')']).length : Int), false⟩ := by
    rw [unary, m0, Res.bind_ok]
    simp only [Bool.false_eq_true, if_false, p1]
  have e0 : expo A src (fuel + 9) start =
      .ok (A.add va vb) ⟨((['('] ++ a ++ ['+'] ++ b ++ [')']).length : Int), false⟩ := by
    rw [expo, u1, Res.bind_ok, z1, Res.bind_ok]
    simp
  rw [term, factor, e0, Res.bind_ok, factorMul, z2, Res.bind_ok]
  simp only [if_true, e3, Res.bind_ok]
  rw [factorMul_done, Res.bind_ok, factorDiv_done, Res.bind_ok, termAdd_done, Res.bind_ok,
    termSub_done]

/-- C4 (the code departs from it): for every numeric literal `a` that `stof` converts and
every operator `op` among `+`, `-`, `*`, `/`, the evaluation of the incomplete expression
`a op` (the specification names `2+`) does not complete. Whatever fuel it is given, `term`
runs out of it: `primary` sets the error flag and puts the cursor on the last character,
the operator itself, which the `while` loop of that operator matches again and again. -/
theorem term_incomplete_diverges (a : List Char) (hl : IsLiteral a) (op : Char)
    (hop : op = '+' ∨ op = '-' ∨ op = '*' ∨ op = '/') (v : V)
    (hv : A.stof (a ++ [op]) = some v) (fuel : Nat) :
    term A (a ++ [op]) fuel start = .fault .outOfFuel := by
  cases fuel with
  | zero => rfl
  | succ n =>
    rw [term]
    rcases hop with rfl | rfl | rfl | rfl
    · rcases factor_lit_last A a hl '+' (by decide) (by decide) (by decide) (by decide)
        (by decide) v hv n with h | h
      · rw [h]; rfl
      · rw [h, Res.bind_ok, termAdd_plus_loop]; rfl
    · rcases factor_lit_last A a hl '-' (by decide) (by decide) (by decide) (by decide)
        (by decide) v hv n with h | h
      · rw [h]; rfl
      · rw [h, Res.bind_ok]
        cases n with
        | zero => rfl
        | succ n =>
          rw [termAdd, matchCh_last a '-' '+' false (by decide), if_pos (by decide), Res.bind_ok]
          simp only [Bool.false_eq_true, if_false, Res.bind_ok]
          exact termSub_minus_loop A a _ _ _
    · have hf : factor A (a ++ ['*']) n start = .fault .outOfFuel := by
        cases n with
        | zero => rfl
        | succ n =>
          rw [factor]
          rcases expo_lit_last A a hl '*' (by decide) (by decide) (by decide) v hv n with h | h
          · rw [h]; rfl
          · rw [h, Res.bind_ok, factorMul_star_loop]; rfl
      rw [hf]; rfl
    · have hf : factor A (a ++ ['/']) n start = .fault .outOfFuel := by
        cases n with
        | zero => rfl
        | succ n =>
          rw [factor]
          rcases expo_lit_last A a hl '/' (by decide) (by decide) (by decide) v hv n with h | h
          · rw [h]; rfl
          · rw [h, Res.bind_ok]
            cases n with
            | zero => rfl
            | succ n =>
              rw [factorMul, matchCh_last a '/' '*' false (by decide), if_pos (by decide),
                Res.bind_ok]
              simp only [Bool.false_eq_true, if_false, Res.bind_ok]
              rw [factorDiv_slash_loop]
      rw [hf]; rfl

/-- C5: an unbalanced opening parenthesis sets the error state. For all numeric literals
`a`, `b` (with `va`, `vb` the values `stof` reads at them), the evaluation of `(a+b` (the
specification names `(1+2`) completes with the error flag set, for every fuel from 11 on:
`match(')')` fails, `primary` sets the flag and puts the cursor on the last character, and
no later `match` succeeds there. The value returned is that of `a+b`. -/
theorem term_open_paren (a b : List Char) (ha : IsLiteral a) (hb : IsLiteral b)
    (va vb : V) (hva : A.stof (a ++ '+' :: b) = some va) (hvb : A.stof b = some vb)
    (fuel : Nat) :
    term A ('(' :: a ++ '+' :: b) (fuel + 11) start =
      .ok (A.add va vb) ⟨(('(' :: a ++ '+' :: b).length : Int) - 1, true⟩ := by
  obtain ⟨init, last, hbl, hlast⟩ := hb.last
  have hlen : ((('(' :: a ++ '+' :: b).length : Nat) : Int) - 1 =
      ((['('] ++ a ++ ['+'] ++ init).length : Int) := by
    rw [hbl]
    simp only [List.length_append, List.length_cons, List.length_nil, Nat.cast_add,
      Nat.cast_one]
    omega
  rw [hlen]
  generalize hsrc : '(' :: a ++ '+' :: b = src
  have h0 : src = [] ++ '(' :: (a ++ '+' :: b) := by simp [← hsrc]
  have h1 : src = ['('] ++ a ++ '+' :: b := by simp [← hsrc]
  have h2 : src = (['('] ++ a ++ ['+']) ++ b := by simp [← hsrc]
  have h4 : src = (['('] ++ a ++ ['+'] ++ init) ++ [last] := by simp [← hsrc, hbl]
  have e1 : expo A src (fuel + 4) ⟨((['('] : List Char).length : Int), false⟩ =
      .ok va ⟨((['('] ++ a).length : Int), false⟩ :=
    expo_lit_mid A src _ a '+' _ h1 ha (by decide) (by decide) (by decide) va
      (by simpa using hva) (fuel + 1) false
  have f2 : factor A src (fuel + 4) ⟨((['('] ++ a ++ ['+']).length : Int), false⟩ =
      .ok vb ⟨-1, false⟩ :=
    factor_lit_end A src _ b h2 hb vb hvb fuel false
  have m0 : matchCh src '-' start = .ok false start :=
    matchCh_miss src [] '(' _ '-' false h0 (by decide) (by decide)
  have m1 : matchCh src '(' start = .ok true ⟨((['('] : List Char).length : Int), false⟩ :=
    matchCh_hit src [] '(' _ false h0 (by decide)
  have x1 : ∀ k : Char, k ≠ '+' → matchCh src k ⟨((['('] ++ a).length : Int), false⟩ =
      .ok false ⟨((['('] ++ a).length : Int), false⟩ := fun k hk =>
    matchCh_miss src _ '+' _ k false h1 (by decide) (Ne.symm hk)
  have x2 : matchCh src '+' ⟨((['('] ++ a).length : Int), false⟩ =
      .ok true ⟨((['('] ++ a ++ ['+']).length : Int), false⟩ :=
    matchCh_hit src _ '+' _ false h1 (by decide)
  have y : ∀ k : Char, k ∉ decDigits →
      matchCh src k ⟨((['('] ++ a ++ ['+'] ++ init).length : Int), true⟩ =
        .ok false ⟨((['('] ++ a ++ ['+'] ++ init).length : Int), true⟩ := fun k hk =>
    matchCh_miss src _ last [] k true h4 (decDigits_ne hlast (by decide))
      (decDigits_ne hlast hk)
  have hes : errorState src = ⟨((['('] ++ a ++ ['+'] ++ init).length : Int), true⟩ := by
    rw [h4, errorState_snoc]
  have f1 : factor A src (fuel + 5) ⟨((['('] : List Char).length : Int), false⟩ =
      .ok va ⟨((['('] ++ a).length : Int), false⟩ := by
    rw [factor, e1, Res.bind_ok, factorMul, x1 '*' (by decide), Res.bind_ok]
    simp only [Bool.false_eq_true, if_false, Res.bind_ok]
    rw [factorDiv, x1 '/' (by decide), Res.bind_ok]
    simp
  have t1 : term A src (fuel + 6) ⟨((['('] : List Char).length : Int), false⟩ =
      .ok (A.add va vb) ⟨-1, false⟩ := by
    rw [term, f1, Res.bind_ok, termAdd, x2, Res.bind_ok]
    simp only [if_true, f2, Res.bind_ok]
    rw [termAdd_done, Res.bind_ok, termSub_done]
  have p1 : primary A src (fuel + 7) start = .ok (A.add va vb)
      ⟨((['('] ++ a ++ ['+'] ++ init).length : Int), true⟩ := by
    rw [primary, m1, Res.bind_ok]
    simp only [if_true, t1, Res.bind_ok, matchCh_minus_one src ')' false (by decide), hes]
    simp
  have u1 : unary A src (fuel + 8) start = .ok (A.add va vb)
      ⟨((['('] ++ a ++ ['+'] ++ init).length : Int), true⟩ := by
    rw [unary, m0, Res.bind_ok]
    simp only [Bool.false_eq_true, if_false, p1]
  rw [term, factor, expo, u1, Res.bind_ok, y '^' (by decide), Res.bind_ok]
  simp only [Bool.false_eq_true, if_false, Res.bind_ok]
  rw [factorMul, y '*' (by decide), Res.bind_ok]
  simp only [Bool.false_eq_true, if_false, Res.bind_ok]
  rw [factorDiv, y '/' (by decide), Res.bind_ok]
  simp only [Bool.false_eq_true, if_false, Res.bind_ok]
  rw [termAdd, y '+' (by decide), Res.bind_ok]
  simp only [Bool.false_eq_true, if_false, Res.bind_ok]
  rw [termSub, y '-' (by decide), Res.bind_ok]
  simp

/-- C6 (the code departs from it): the evaluation of the non-empty line `+` does not
terminate. Whatever fuel it is given, `term` started with cursor 0 and error flag false runs
out of it: after the syntax error `primary` puts the cursor on the last character, the `+`
itself, and the loop `while (match('+'))` of `term` matches it again and again. -/
theorem term_plus_diverges (fuel : Nat) : term A "+".toList fuel start = .fault .outOfFuel := by
  cases fuel with
  | zero => rfl
  | succ n =>
    simp only [term]
    rcases factor_plus_error A n start (Or.inl rfl) with h | h
    · rw [h]; rfl
    · rw [h, Res.bind_ok, termAdd_plus_diverges]; rfl

/-- C7 (the code departs from it): the cursor does not stay within `0 <= cursor <= |src|`.
For every numeric literal `n` that `stof` converts, `primary` called on the input `n` at
cursor 0 returns with the cursor at `-1` (`find_first_not_of` finds nothing and `npos` is
stored in the `int`). The index `-1` is outside the buffer, where the C++ standard defines
no character, and every later `match` reads `src[-1]` all the same: it finds the zero byte
there, fails and leaves the cursor at `-1`. -/
theorem cursor_after_literal (n : List Char) (h : IsLiteral n) (v : V)
    (hv : A.stof n = some v) (fuel : Nat) :
    primary A n (fuel + 1) start = .ok v ⟨-1, false⟩ ∧
      charAt n (-1) = none ∧
      ∀ c : Char, c ≠ NUL → matchCh n c ⟨-1, false⟩ = .ok false ⟨-1, false⟩ :=
  ⟨primary_lit_end A n [] n rfl h v hv fuel false, rfl,
    fun c hc => matchCh_minus_one n c false hc⟩

/-- C8: contract of `match`. For a buffer `s`, a cursor `i` with `0 <= i <= |s|` and an
expected character `c` other than NUL there is an index `j`, the least one from `i` on that
is `|s|` or holds a character other than a space (`i <= j <= |s|`, every index in `[i, j)`
holds a space, and `j` does not), such that `match(c)` returns `true` with the cursor at
`j + 1` when `j < |s|` and `s[j] = c`, and returns `false` with the cursor at `j` otherwise;
the error flag is untouched. So the cursor never decreases, never passes `|s|` (a hit has
`j + 1 <= |s|`), and leading spaces are consumed also on a miss. -/
theorem matchCh_contract (s : List Char) (i : Nat) (c : Char) (e : Bool)
    (hi : i ≤ s.length) (hc : c ≠ NUL) :
    ∃ j : Nat, i ≤ j ∧ j ≤ s.length ∧ (∀ k, i ≤ k → k < j → s[k]? = some ' ') ∧
      s[j]? ≠ some ' ' ∧
      (s[j]? = some c → j + 1 ≤ s.length) ∧
      matchCh s c ⟨(i : Int), e⟩ =
        if s[j]? = some c then .ok true ⟨(j : Int) + 1, e⟩ else .ok false ⟨(j : Int), e⟩ := by
  obtain ⟨j, hj, hij, hjl, hall, hstop⟩ := skipSpaces_spec s s.length i hi (by omega)
  refine ⟨j, hij, hjl, hall, hstop, ?_, ?_⟩
  · intro hsome
    by_contra hlt
    rw [List.getElem?_eq_none (by omega)] at hsome
    exact absurd hsome (by simp)
  simp only [matchCh, hj]
  rcases Nat.eq_or_lt_of_le hjl with rfl | hlt
  · have h1 : charAt s (s.length : Int) = some NUL := by simp [charAt]
    simp only [readChar_of_charAt h1]
    rw [if_pos (Ne.symm hc), if_neg]
    simp
  · have h1 : charAt s (j : Int) = some s[j] := by
      have : (j : Int) < s.length := by exact_mod_cast hlt
      simp [charAt, this, List.getD_eq_getElem?_getD, List.getElem?_eq_getElem hlt]
    simp only [readChar_of_charAt h1, List.getElem?_eq_getElem hlt, Option.some.injEq]
    by_cases hcc : s[j] = c
    · simp [hcc]
      omega
    · simp [hcc]

/-- C9: chained unary negation. For every numeric literal `v` (with `x` the value `stof`
converts it to) and every `k`, the evaluation of `k` minus signs followed by `v` (the
specification names `--5`) returns `x` when `k` is even and `-x` when `k` is odd, with the
error flag unset, for every fuel from `k + 5` on. The negation of `float` undoes itself,
which is the hypothesis on `neg`. -/
theorem term_minus (k : Nat) (v : List Char) (hl : IsLiteral v) (x : V)
    (hx : A.stof v = some x) (hneg : ∀ y : V, A.neg (A.neg y) = y) (fuel : Nat) :
    term A (List.replicate k '-' ++ v) (fuel + k + 5) start =
      .ok (if k % 2 = 0 then x else A.neg x) ⟨-1, false⟩ := by
  have hu := unary_minus_lit A v hl x hx fuel false k []
  simp only [List.nil_append] at hu
  have he : expo A (List.replicate k '-' ++ v) (fuel + k + 2 + 1) start =
      .ok (A.neg^[k] x) ⟨-1, false⟩ := by
    rw [expo, start_eq, hu, Res.bind_ok, matchCh_minus_one _ '^' false (by decide),
      Res.bind_ok]
    simp
  rw [← iterate_neg A hneg x k]
  exact term_tail A _ (fuel + k + 3) start _ false (factor_tail A _ (fuel + k + 2) start _
    false he)

/-- C10: exponentiation. For all numeric literals `a`, `b` (with `va`, `vb` the values
`stof` reads at them), the evaluation of `a^b` (the specification names `2^3`) returns
`pow a b` with the error flag unset, for every fuel from 5 on. -/
theorem term_pow (a b : List Char) (ha : IsLiteral a) (hb : IsLiteral b) (va vb : V)
    (hva : A.stof (a ++ '^' :: b) = some va) (hvb : A.stof b = some vb) (fuel : Nat) :
    term A (a ++ '^' :: b) (fuel + 5) start = .ok (A.pow va vb) ⟨-1, false⟩ := by
  generalize hsrc : a ++ '^' :: b = src at hva ⊢
  have h1 : src = [] ++ a ++ '^' :: b := by simp [← hsrc]
  have h2 : src = (a ++ ['^']) ++ b := by simp [← hsrc]
  have u1 : unary A src (fuel + 2) start = .ok va ⟨(a.length : Int), false⟩ := by
    have := unary_lit A src [] a _ h1 ha (fuel + 1) false
    rw [primary_lit_mid A src [] a '^' b h1 ha (by decide) va (hsrc ▸ hva) fuel false] at this
    simpa using this
  have u2 : unary A src (fuel + 2) ⟨((a ++ ['^']).length : Int), false⟩ = .ok vb ⟨-1, false⟩ := by
    rw [unary_lit A src _ b [] (by simpa using h2) hb (fuel + 1) false,
      primary_lit_end A src _ b h2 hb vb hvb fuel false]
  have x1 : matchCh src '^' ⟨(a.length : Int), false⟩ =
      .ok true ⟨((a ++ ['^']).length : Int), false⟩ :=
    matchCh_hit src a '^' _ false (by simpa using h1) (by decide)
  have e1 : expo A src (fuel + 3) start = .ok (A.pow va vb) ⟨-1, false⟩ := by
    rw [expo, u1, Res.bind_ok, x1, Res.bind_ok]
    simp only [if_true, u2, Res.bind_ok]
  exact term_tail A src (fuel + 3) start _ false (factor_tail A src (fuel + 2) start _
    false e1)

/-- The incomplete power `a^` is the incomplete binary expression that does complete: the
error flag is set, the cursor is put on the last character, the `^`, and no loop matches it. -/
theorem term_incomplete_pow (a : List Char) (hl : IsLiteral a) (v : V)
    (hv : A.stof (a ++ ['^']) = some v) (fuel : Nat) :
    term A (a ++ ['^']) (fuel + 5) start = .ok (A.pow v A.zero) ⟨(a.length : Int), true⟩ := by
  have u1 : unary A (a ++ ['^']) (fuel + 2) start = .ok v ⟨(a.length : Int), false⟩ := by
    have := unary_lit A (a ++ ['^']) [] a ['^'] (by simp) hl (fuel + 1) false
    rw [primary_lit_mid A (a ++ ['^']) [] a '^' [] (by simp) hl (by decide) v hv fuel false]
      at this
    simpa using this
  have u2 : unary A (a ++ ['^']) (fuel + 2) ⟨((a ++ ['^']).length : Int), false⟩ =
      .ok A.zero ⟨(a.length : Int), true⟩ := by
    rw [unary_end_ok, errorState_snoc]
  rw [term, factor, expo, u1, Res.bind_ok, matchCh_last a '^' '^' false (by decide),
    if_neg (by simp), Res.bind_ok]
  simp only [if_true, u2, Res.bind_ok]
  rw [factorMul, matchCh_last a '^' '*' true (by decide), if_pos (by decide), Res.bind_ok]
  simp only [Bool.false_eq_true, if_false, Res.bind_ok]
  rw [factorDiv, matchCh_last a '^' '/' true (by decide), if_pos (by decide), Res.bind_ok]
  simp only [Bool.false_eq_true, if_false, Res.bind_ok]
  rw [termAdd, matchCh_last a '^' '+' true (by decide), if_pos (by decide), Res.bind_ok]
  simp only [Bool.false_eq_true, if_false, Res.bind_ok]
  rw [termSub, matchCh_last a '^' '-' true (by decide), if_pos (by decide), Res.bind_ok]
  simp

/-! ## The same inputs followed by a space

When the line goes on after the last literal, `find_first_not_of` finds a character and the
cursor stays inside the buffer; the values are the same. -/

theorem term_literal_spaced (v : V) (hv : A.stof "2 ".toList = some v) (fuel : Nat) :
    term A "2 ".toList (fuel + 5) start = .ok v ⟨2, false⟩ := by
  obtain ⟨zero, stof, neg, add, sub, mul, div, pow⟩ := A
  simp only at hv
  have hs : stof = fun s => if s = "2 ".toList then some v else stof s := by
    funext s; split_ifs <;> simp_all
  rw [hs]
  rfl

theorem term_add_mul_spaced (a b c : V) (ha : A.stof "2+3*4 ".toList = some a)
    (hb : A.stof "3*4 ".toList = some b) (hc : A.stof "4 ".toList = some c) (fuel : Nat) :
    term A "2+3*4 ".toList (fuel + 7) start = .ok (A.add a (A.mul b c)) ⟨6, false⟩ := by
  obtain ⟨zero, stof, neg, add, sub, mul, div, pow⟩ := A
  simp only at ha hb hc
  have hs : stof = fun s => if s = "2+3*4 ".toList then some a
      else if s = "3*4 ".toList then some b else if s = "4 ".toList then some c else stof s := by
    funext s; split_ifs <;> simp_all
  rw [hs]
  rfl

theorem term_paren_mul_spaced (a b c : V) (ha : A.stof "2+3)*4 ".toList = some a)
    (hb : A.stof "3)*4 ".toList = some b) (hc : A.stof "4 ".toList = some c) (fuel : Nat) :
    term A "(2+3)*4 ".toList (fuel + 11) start = .ok (A.mul (A.add a b) c) ⟨8, false⟩ := by
  obtain ⟨zero, stof, neg, add, sub, mul, div, pow⟩ := A
  simp only at ha hb hc
  have hs : stof = fun s => if s = "2+3)*4 ".toList then some a
      else if s = "3)*4 ".toList then some b else if s = "4 ".toList then some c else stof s := by
    funext s; split_ifs <;> simp_all
  rw [hs]
  rfl

theorem term_open_paren_spaced (a b : V) (ha : A.stof "1+2 ".toList = some a)
    (hb : A.stof "2 ".toList = some b) (fuel : Nat) :
    term A "(1+2 ".toList (fuel + 11) start = .ok (A.add a b) ⟨5, true⟩ := by
  obtain ⟨zero, stof, neg, add, sub, mul, div, pow⟩ := A
  simp only at ha hb
  have hs : stof = fun s => if s = "1+2 ".toList then some a
      else if s = "2 ".toList then some b else stof s := by
    funext s; split_ifs <;> simp_all
  rw [hs]
  rfl

theorem term_neg_neg_spaced (v : V) (hv : A.stof "5 ".toList = some v) (fuel : Nat) :
    term A "--5 ".toList (fuel + 7) start = .ok (A.neg (A.neg v)) ⟨4, false⟩ := by
  obtain ⟨zero, stof, neg, add, sub, mul, div, pow⟩ := A
  simp only at hv
  have hs : stof = fun s => if s = "5 ".toList then some v else stof s := by
    funext s; split_ifs <;> simp_all
  rw [hs]
  rfl

theorem term_pow_spaced (a b : V) (ha : A.stof "2^3 ".toList = some a)
    (hb : A.stof "3 ".toList = some b) (fuel : Nat) :
    term A "2^3 ".toList (fuel + 5) start = .ok (A.pow a b) ⟨4, false⟩ := by
  obtain ⟨zero, stof, neg, add, sub, mul, div, pow⟩ := A
  simp only at ha hb
  have hs : stof = fun s => if s = "2^3 ".toList then some a
      else if s = "3 ".toList then some b else stof s := by
    funext s; split_ifs <;> simp_all
  rw [hs]
  rfl

/-! ## Instances

The theorems above applied to the inputs that the specification names, with `ratOps` or
`symOps` for the library. -/

theorem isLiteral_digit (d : Char) (hd : d ∈ decDigits) : IsLiteral [d] :=
  ⟨[d], [], by simp, by simpa using hd, by simp, Or.inl rfl⟩

theorem isLiteral_one_point_five : IsLiteral "1.5".toList :=
  ⟨"1".toList, "5".toList, by decide, by decide, by decide, Or.inr ⟨by decide, rfl⟩⟩

theorem term_literal_witness :
    IsLiteral "2".toList ∧ term ratOps "2".toList 5 start = .ok 2 ⟨-1, false⟩ :=
  ⟨isLiteral_digit '2' (by decide),
    term_literal ratOps _ (isLiteral_digit '2' (by decide)) 2 (by decide) 0⟩

theorem term_add_mul_witness :
    term ratOps "2+3*4".toList 7 start = .ok 14 ⟨-1, false⟩ := by
  have h := term_add_mul ratOps "2".toList "3".toList "4".toList
    (isLiteral_digit '2' (by decide)) (isLiteral_digit '3' (by decide))
    (isLiteral_digit '4' (by decide)) 2 3 4 (by decide) (by decide) (by decide) 0
  rw [show "2+3*4".toList = "2".toList ++ '+' :: "3".toList ++ '*' :: "4".toList from rfl,
    show (7 : Nat) = 0 + 7 from rfl, h]
  norm_num [ratOps]

theorem term_paren_mul_witness :
    term ratOps "(2+3)*4".toList 11 start = .ok 20 ⟨-1, false⟩ := by
  have h := term_paren_mul ratOps "2".toList "3".toList "4".toList
    (isLiteral_digit '2' (by decide)) (isLiteral_digit '3' (by decide))
    (isLiteral_digit '4' (by decide)) 2 3 4 (by decide) (by decide) (by decide) 0
  rw [show "(2+3)*4".toList =
      '(' :: "2".toList ++ '+' :: "3".toList ++ ')' :: '*' :: "4".toList from rfl,
    show (11 : Nat) = 0 + 11 from rfl, h]
  norm_num [ratOps]

theorem term_incomplete_diverges_witness :
    IsLiteral "2".toList ∧ term symOps "2+".toList 1000 start = .fault .outOfFuel :=
  ⟨isLiteral_digit '2' (by decide),
    term_incomplete_diverges symOps "2".toList (isLiteral_digit '2' (by decide)) '+'
      (Or.inl rfl) _ rfl 1000⟩

theorem term_open_paren_witness :
    term ratOps "(1+2".toList 11 start = .ok 3 ⟨3, true⟩ := by
  have h := term_open_paren ratOps "1".toList "2".toList
    (isLiteral_digit '1' (by decide)) (isLiteral_digit '2' (by decide)) 1 2
    (by decide) (by decide) 0
  rw [show "(1+2".toList = '(' :: "1".toList ++ '+' :: "2".toList from rfl,
    show (11 : Nat) = 0 + 11 from rfl, h]
  norm_num [ratOps]

theorem cursor_after_literal_witness :
    IsLiteral "1.5".toList ∧
      primary symOps "1.5".toList 1 start = .ok (.lit "1.5".toList) ⟨-1, false⟩ ∧
      charAt "1.5".toList (-1) = none ∧
      ∀ c : Char, c ≠ NUL → matchCh "1.5".toList c ⟨-1, false⟩ = .ok false ⟨-1, false⟩ :=
  ⟨isLiteral_one_point_five, cursor_after_literal symOps _ isLiteral_one_point_five _ rfl 0⟩

theorem matchCh_contract_witness :
    (1 ≤ "2 +3".toList.length ∧ '+' ≠ NUL) ∧
      ∃ j : Nat, 1 ≤ j ∧ j ≤ "2 +3".toList.length ∧
        (∀ k, 1 ≤ k → k < j → "2 +3".toList[k]? = some ' ') ∧
        "2 +3".toList[j]? ≠ some ' ' ∧
        ("2 +3".toList[j]? = some '+' → j + 1 ≤ "2 +3".toList.length) ∧
        matchCh "2 +3".toList '+' ⟨((1 : Nat) : Int), false⟩ =
          if "2 +3".toList[j]? = some '+' then .ok true ⟨(j : Int) + 1, false⟩
          else .ok false ⟨(j : Int), false⟩ :=
  ⟨⟨by decide, by decide⟩, matchCh_contract "2 +3".toList 1 '+' false (by decide) (by decide)⟩

theorem term_minus_witness :
    IsLiteral "5".toList ∧ term ratOps "--5".toList 7 start = .ok 5 ⟨-1, false⟩ :=
  ⟨isLiteral_digit '5' (by decide),
    term_minus ratOps 2 "5".toList (isLiteral_digit '5' (by decide)) 5 (by decide)
      (fun y => by simp [ratOps]) 0⟩

theorem term_pow_witness :
    term ratOps "2^3".toList 5 start = .ok 8 ⟨-1, false⟩ := by
  have h := term_pow ratOps "2".toList "3".toList
    (isLiteral_digit '2' (by decide)) (isLiteral_digit '3' (by decide)) 2 3
    (by decide) (by decide) 0
  rw [show "2^3".toList = "2".toList ++ '^' :: "3".toList from rfl,
    show (5 : Nat) = 0 + 5 from rfl, h]
  norm_num [ratOps, ratPow]

/-! ## The later claims of the specification -/

/-! ## A literal followed by a character that no tier of the grammar consumes -/

theorem factor_lit_mid (src pre lit : List Char) (d : Char) (post : List Char)
    (h : src = pre ++ lit ++ d :: post) (hl : IsLiteral lit) (hd : d ∉ digitsDot)
    (hsp : d ≠ ' ') (hpow : d ≠ '^') (hmul : d ≠ '*') (hdiv : d ≠ '/') (v : V)
    (hv : A.stof (lit ++ d :: post) = some v) (fuel : Nat) (e : Bool) :
    factor A src (fuel + 4) ⟨(pre.length : Int), e⟩ =
      .ok v ⟨((pre ++ lit).length : Int), e⟩ := by
  rw [factor, expo_lit_mid A src pre lit d post h hl hd hsp hpow v hv fuel e, Res.bind_ok,
    factorMul, matchCh_miss src (pre ++ lit) d post '*' e h hsp hmul, Res.bind_ok]
  simp only [Bool.false_eq_true, if_false, Res.bind_ok]
  rw [factorDiv, matchCh_miss src (pre ++ lit) d post '/' e h hsp hdiv, Res.bind_ok]
  simp

/-- C13: `term` has the two-loop caveat of `factor`. For all numeric literals `a`, `b` and
every text `c` (a literal in particular), the evaluation of `a-b+c` (the specification names
`1-2+3`) returns `a - b` with the error flag unset: the loop for `+` has ended before the
loop for `-` starts, so the `+` after `b` is never matched and the cursor stays on it.
`va` and `vb` are the values that `stof` reads at `a` and at `b`. -/
theorem term_sub_add_unconsumed (a b c : List Char) (ha : IsLiteral a) (hb : IsLiteral b)
    (va vb : V) (hva : A.stof (a ++ '-' :: b ++ '+' :: c) = some va)
    (hvb : A.stof (b ++ '+' :: c) = some vb) (fuel : Nat) :
    term A (a ++ '-' :: b ++ '+' :: c) (fuel + 6) start =
      .ok (A.sub va vb) ⟨((a ++ '-' :: b).length : Int), false⟩ := by
  generalize hsrc : a ++ '-' :: b ++ '+' :: c = src
  have h1 : src = [] ++ a ++ '-' :: (b ++ '+' :: c) := by simp [← hsrc]
  have h2 : src = (a ++ ['-']) ++ b ++ '+' :: c := by simp [← hsrc]
  have f1 : factor A src (fuel + 5) start = .ok va ⟨(a.length : Int), false⟩ := by
    have := factor_lit_mid A src [] a '-' _ h1 ha (by decide) (by decide) (by decide)
      (by decide) (by decide) va (by simpa using hva) (fuel + 1) false
    simpa using this
  have f2 : factor A src (fuel + 4) ⟨((a ++ ['-']).length : Int), false⟩ =
      .ok vb ⟨((a ++ ['-'] ++ b).length : Int), false⟩ :=
    factor_lit_mid A src _ b '+' _ h2 hb (by decide) (by decide) (by decide)
      (by decide) (by decide) vb hvb fuel false
  have x1 : matchCh src '+' ⟨(a.length : Int), false⟩ = .ok false ⟨(a.length : Int), false⟩ :=
    matchCh_miss src a '-' _ '+' false (by simpa using h1) (by decide) (by decide)
  have x2 : matchCh src '-' ⟨(a.length : Int), false⟩ =
      .ok true ⟨((a ++ ['-']).length : Int), false⟩ :=
    matchCh_hit src a '-' _ false (by simpa using h1) (by decide)
  have x3 : matchCh src '-' ⟨((a ++ ['-'] ++ b).length : Int), false⟩ =
      .ok false ⟨((a ++ ['-'] ++ b).length : Int), false⟩ :=
    matchCh_miss src _ '+' _ '-' false h2 (by decide) (by decide)
  rw [term, f1, Res.bind_ok, termAdd, x1, Res.bind_ok]
  simp only [Bool.false_eq_true, if_false, Res.bind_ok]
  rw [termSub, x2, Res.bind_ok]
  simp only [if_true, f2, Res.bind_ok]
  rw [termSub, x3, Res.bind_ok]
  simp

/-- C12 (the code departs from it): for all numeric literals `a`, `b` and every text `c`,
the evaluation of `a/b*c` (the specification names `8/2*2`) returns `a / b`, not
`(a / b) * c`: the loop for `*` of `factor` has ended before the loop for `/` starts, so
the `*` after `b` is never matched and the cursor stays on it; the error flag is unset.
`va` and `vb` are the values that `stof` reads at `a` and at `b`. -/
theorem term_div_mul_unconsumed (a b c : List Char) (ha : IsLiteral a) (hb : IsLiteral b)
    (va vb : V) (hva : A.stof (a ++ '/' :: b ++ '*' :: c) = some va)
    (hvb : A.stof (b ++ '*' :: c) = some vb) (fuel : Nat) :
    term A (a ++ '/' :: b ++ '*' :: c) (fuel + 6) start =
      .ok (A.div va vb) ⟨((a ++ '/' :: b).length : Int), false⟩ := by
  generalize hsrc : a ++ '/' :: b ++ '*' :: c = src
  have h1 : src = [] ++ a ++ '/' :: (b ++ '*' :: c) := by simp [← hsrc]
  have h2 : src = (a ++ ['/']) ++ b ++ '*' :: c := by simp [← hsrc]
  have e1 : expo A src (fuel + 4) start = .ok va ⟨(a.length : Int), false⟩ := by
    have := expo_lit_mid A src [] a '/' _ h1 ha (by decide) (by decide) (by decide)
      va (by simpa using hva) (fuel + 1) false
    simpa using this
  have e2 : expo A src (fuel + 3) ⟨((a ++ ['/']).length : Int), false⟩ =
      .ok vb ⟨((a ++ ['/'] ++ b).length : Int), false⟩ :=
    expo_lit_mid A src _ b '*' _ h2 hb (by decide) (by decide) (by decide) vb hvb fuel false
  have x1 : matchCh src '*' ⟨(a.length : Int), false⟩ = .ok false ⟨(a.length : Int), false⟩ :=
    matchCh_miss src a '/' _ '*' false (by simpa using h1) (by decide) (by decide)
  have x2 : matchCh src '/' ⟨(a.length : Int), false⟩ =
      .ok true ⟨((a ++ ['/']).length : Int), false⟩ :=
    matchCh_hit src a '/' _ false (by simpa using h1) (by decide)
  have y : ∀ k : Char, k ≠ '*' → matchCh src k ⟨((a ++ ['/'] ++ b).length : Int), false⟩ =
      .ok false ⟨((a ++ ['/'] ++ b).length : Int), false⟩ := fun k hk =>
    matchCh_miss src _ '*' _ k false h2 (by decide) (Ne.symm hk)
  have f1 : factor A src (fuel + 5) start =
      .ok (A.div va vb) ⟨((a ++ ['/'] ++ b).length : Int), false⟩ := by
    rw [factor, e1, Res.bind_ok, factorMul, x1, Res.bind_ok]
    simp only [Bool.false_eq_true, if_false, Res.bind_ok]
    rw [factorDiv, x2, Res.bind_ok]
    simp only [if_true, e2, Res.bind_ok]
    rw [factorDiv, y '/' (by decide), Res.bind_ok]
    simp
  rw [term, f1, Res.bind_ok, termAdd, y '+' (by decide), Res.bind_ok]
  simp only [Bool.false_eq_true, if_false, Res.bind_ok]
  rw [termSub, y '-' (by decide), Res.bind_ok]
  simp

/-- C17: exponentiation is not chained. For all numeric literals `a`, `b` and every text
`c`, the evaluation of `a^b^c` (the specification names `2^3^2`) returns `pow a b` with the
error flag unset; the second `^` is never matched and the cursor stays on it. `va` and
`vb` are the values that `stof` reads at `a` and at `b`. -/
theorem term_pow_pow_unchained (a b c : List Char) (ha : IsLiteral a) (hb : IsLiteral b)
    (va vb : V) (hva : A.stof (a ++ '^' :: b ++ '^' :: c) = some va)
    (hvb : A.stof (b ++ '^' :: c) = some vb) (fuel : Nat) :
    term A (a ++ '^' :: b ++ '^' :: c) (fuel + 5) start =
      .ok (A.pow va vb) ⟨((a ++ '^' :: b).length : Int), false⟩ := by
  generalize hsrc : a ++ '^' :: b ++ '^' :: c = src
  have h1 : src = [] ++ a ++ '^' :: (b ++ '^' :: c) := by simp [← hsrc]
  have h2 : src = (a ++ ['^']) ++ b ++ '^' :: c := by simp [← hsrc]
  have u1 : unary A src (fuel + 2) start = .ok va ⟨(a.length : Int), false⟩ := by
    have := unary_lit A src [] a _ h1 ha (fuel + 1) false
    rw [primary_lit_mid A src [] a '^' _ h1 ha (by decide) va (by simpa using hva) fuel false]
      at this
    simpa using this
  have u2 : unary A src (fuel + 2) ⟨((a ++ ['^']).length : Int), false⟩ =
      .ok vb ⟨((a ++ ['^'] ++ b).length : Int), false⟩ := by
    rw [unary_lit A src _ b _ h2 hb (fuel + 1) false,
      primary_lit_mid A src _ b '^' _ h2 hb (by decide) vb hvb fuel false]
  have x1 : matchCh src '^' ⟨(a.length : Int), false⟩ =
      .ok true ⟨((a ++ ['^']).length : Int), false⟩ :=
    matchCh_hit src a '^' _ false (by simpa using h1) (by decide)
  have y : ∀ k : Char, k ≠ '^' → matchCh src k ⟨((a ++ ['^'] ++ b).length : Int), false⟩ =
      .ok false ⟨((a ++ ['^'] ++ b).length : Int), false⟩ := fun k hk =>
    matchCh_miss src _ '^' _ k false h2 (by decide) (Ne.symm hk)
  have e1 : expo A src (fuel + 3) start =
      .ok (A.pow va vb) ⟨((a ++ ['^'] ++ b).length : Int), false⟩ := by
    rw [expo, u1, Res.bind_ok, x1, Res.bind_ok]
    simp only [if_true, u2, Res.bind_ok]
  rw [term, factor, e1, Res.bind_ok, factorMul, y '*' (by decide), Res.bind_ok]
  simp only [Bool.false_eq_true, if_false, Res.bind_ok]
  rw [factorDiv, y '/' (by decide), Res.bind_ok]
  simp only [Bool.false_eq_true, if_false, Res.bind_ok]
  rw [termAdd, y '+' (by decide), Res.bind_ok]
  simp only [Bool.false_eq_true, if_false, Res.bind_ok]
  rw [termSub, y '-' (by decide), Res.bind_ok]
  simp

/-- C18: the evaluator does not require the whole input to be consumed. For every numeric
literal `a` and every text `t`, the evaluation of `a)t` (`2)` for instance) returns the
value that `stof` reads at `a`, with the error flag unset; the cursor stays on the `)`. -/
theorem term_stray_paren (a t : List Char) (ha : IsLiteral a) (va : V)
    (hva : A.stof (a ++ ')' :: t) = some va) (fuel : Nat) :
    term A (a ++ ')' :: t) (fuel + 5) start = .ok va ⟨(a.length : Int), false⟩ := by
  generalize hsrc : a ++ ')' :: t = src at hva ⊢
  have h1 : src = [] ++ a ++ ')' :: t := by simp [← hsrc]
  have f1 : factor A src (fuel + 4) start = .ok va ⟨(a.length : Int), false⟩ := by
    have := factor_lit_mid A src [] a ')' _ h1 ha (by decide) (by decide) (by decide)
      (by decide) (by decide) va (hsrc ▸ hva) fuel false
    simpa using this
  have y : ∀ k : Char, k ≠ ')' → matchCh src k ⟨(a.length : Int), false⟩ =
      .ok false ⟨(a.length : Int), false⟩ := fun k hk =>
    matchCh_miss src a ')' _ k false (by simpa using h1) (by decide) (Ne.symm hk)
  rw [term, f1, Res.bind_ok, termAdd, y '+' (by decide), Res.bind_ok]
  simp only [Bool.false_eq_true, if_false, Res.bind_ok]
  rw [termSub, y '-' (by decide), Res.bind_ok]
  simp

/-- C19: unary minus binds tighter than `^`. For all numeric literals `a`, `b` (with `va`,
`vb` the values `stof` reads at them), the evaluation of `-a^b` (the specification names
`-2^2`) returns `pow (neg a) b`, that is `(-a)^b` and not `-(a^b)`, with the error flag
unset, for every fuel from 6 on. -/
theorem term_neg_pow (a b : List Char) (ha : IsLiteral a) (hb : IsLiteral b)
    (va vb : V) (hva : A.stof (a ++ '^' :: b) = some va) (hvb : A.stof b = some vb)
    (fuel : Nat) :
    term A ('-' :: a ++ '^' :: b) (fuel + 6) start =
      .ok (A.pow (A.neg va) vb) ⟨-1, false⟩ := by
  generalize hsrc : '-' :: a ++ '^' :: b = src
  have h0 : src = [] ++ '-' :: (a ++ '^' :: b) := by simp [← hsrc]
  have h1 : src = ['-'] ++ a ++ '^' :: b := by simp [← hsrc]
  have h2 : src = (['-'] ++ a ++ ['^']) ++ b := by simp [← hsrc]
  have m0 : matchCh src '-' start = .ok true ⟨((['-'] : List Char).length : Int), false⟩ :=
    matchCh_hit src [] '-' _ false h0 (by decide)
  have u0 : unary A src (fuel + 2) ⟨((['-'] : List Char).length : Int), false⟩ =
      .ok va ⟨((['-'] ++ a).length : Int), false⟩ := by
    rw [unary_lit A src _ a _ h1 ha (fuel + 1) false,
      primary_lit_mid A src _ a '^' _ h1 ha (by decide) va hva fuel false]
  have u1 : unary A src (fuel + 3) start =
      .ok (A.neg va) ⟨((['-'] ++ a).length : Int), false⟩ := by
    rw [unary, m0, Res.bind_ok]
    simp only [if_true, u0, Res.bind_ok]
  have x1 : matchCh src '^' ⟨((['-'] ++ a).length : Int), false⟩ =
      .ok true ⟨((['-'] ++ a ++ ['^']).length : Int), false⟩ :=
    matchCh_hit src _ '^' _ false h1 (by decide)
  have u2 : unary A src (fuel + 3) ⟨((['-'] ++ a ++ ['^']).length : Int), false⟩ =
      .ok vb ⟨-1, false⟩ := by
    rw [unary_lit A src _ b [] (by simpa using h2) hb (fuel + 2) false,
      primary_lit_end A src _ b h2 hb vb hvb (fuel + 1) false]
  have e1 : expo A src (fuel + 4) start = .ok (A.pow (A.neg va) vb) ⟨-1, false⟩ := by
    rw [expo, u1, Res.bind_ok, x1, Res.bind_ok]
    simp only [if_true, u2, Res.bind_ok]
  exact term_tail A src (fuel + 4) start _ false (factor_tail A src (fuel + 3) start _
    false e1)

/-! ## The error paths of `primary` -/

theorem matchCh_had_error (src : List Char) (c : Char) (st st1 : State) (b : Bool)
    (h : matchCh src c st = .ok b st1) : st1.had_error = st.had_error := by
  simp only [matchCh] at h
  cases hc : readChar src (skipSpaces src src.length st.i) with
  | none => rw [hc] at h; exact absurd h (by simp)
  | some d =>
    rw [hc] at h
    simp only at h
    by_cases hd : d ≠ c
    · rw [if_pos hd] at h
      simp only [Res.ok.injEq] at h
      rw [← h.2]
    · rw [if_neg hd] at h
      simp only [Res.ok.injEq] at h
      rw [← h.2]

/-- C16 (as amended): whenever `primary` sets the error flag (unset at the call, set at the
return) without having matched an opening parenthesis, that is on an unexpected character
or at the end of the input, the value it returns is the `0` of `float val = 0`; the cursor
is then `src.length() - 1`. -/
theorem primary_no_value (src : List Char) (fuel : Nat) (st st' : State) (v : V)
    (h : primary A src fuel st = .ok v st') (h0 : st.had_error = false)
    (h1 : st'.had_error = true) (hp : ∀ st1, matchCh src '(' st ≠ .ok true st1) :
    v = A.zero ∧ st' = errorState src := by
  cases fuel with
  | zero => exact absurd h (by simp [primary])
  | succ fuel =>
    rw [primary] at h
    cases hm : matchCh src '(' st with
    | fault f => rw [hm] at h; exact absurd h (by simp)
    | ok b st1 =>
      cases b with
      | true => exact absurd hm (hp st1)
      | false =>
        have he : st1.had_error = false := by
          rw [matchCh_had_error src '(' st st1 false hm, h0]
        rw [hm, Res.bind_ok] at h
        simp only [Bool.false_eq_true, if_false] at h
        cases hc : readChar src st1.i with
        | none => rw [hc] at h; exact absurd h (by simp)
        | some c =>
          rw [hc] at h
          simp only at h
          by_cases hd : isdigit c = true
          · rw [if_pos hd] at h
            cases hs : A.stof (List.drop st1.i.toNat src) with
            | none => rw [hs] at h; exact absurd h (by simp)
            | some val =>
              rw [hs] at h
              simp only [Res.ok.injEq] at h
              rw [← h.2] at h1
              simp only at h1
              rw [he] at h1
              exact absurd h1 (by simp)
          · rw [if_neg hd] at h
            simp only [Res.ok.injEq] at h
            exact ⟨h.1.symm, h.2.symm⟩

theorem primary_open_paren_spaced (a b : V) (ha : A.stof "1+2 ".toList = some a)
    (hb : A.stof "2 ".toList = some b) (fuel : Nat) :
    primary A "(1+2 ".toList (fuel + 7) start = .ok (A.add a b) ⟨4, true⟩ := by
  obtain ⟨zero, stof, neg, add, sub, mul, div, pow⟩ := A
  simp only at ha hb
  have hs : stof = fun s => if s = "1+2 ".toList then some a
      else if s = "2 ".toList then some b else stof s := by
    funext s; split_ifs <;> simp_all
  rw [hs]
  rfl

theorem primary_nested_error (a : V) (ha : A.stof "1+)".toList = some a) (fuel : Nat) :
    primary A "(1+)".toList (fuel + 11) start = .ok (A.add a A.zero) ⟨4, true⟩ := by
  obtain ⟨zero, stof, neg, add, sub, mul, div, pow⟩ := A
  simp only at ha
  have hs : stof = fun s => if s = "1+)".toList then some a else stof s := by
    funext s; split_ifs <;> simp_all
  rw [hs]
  rfl

/-- C15 (the code departs from it): after `primary` has set the error flag the cursor is
`src.length() - 1`, the index of the last character, not the length of the buffer. On the
line `+` the cursor is 0 after the error and the next `match('+')` succeeds; on the line
`(1 ` with its missing parenthesis the cursor is 2, the length being 3. -/
theorem primary_error_cursor (v : V) (hv : A.stof "1 ".toList = some v) (fuel : Nat) :
    (primary A "+".toList (fuel + 1) start = .ok A.zero ⟨0, true⟩ ∧
      matchCh "+".toList '+' ⟨0, true⟩ = .ok true ⟨1, true⟩) ∧
    primary A "(1 ".toList (fuel + 7) start = .ok v ⟨2, true⟩ := by
  refine ⟨⟨rfl, by decide⟩, ?_⟩
  obtain ⟨zero, stof, neg, add, sub, mul, div, pow⟩ := A
  simp only at hv
  have hs : stof = fun s => if s = "1 ".toList then some v else stof s := by
    funext s; split_ifs <;> simp_all
  rw [hs]
  rfl

/-- C14 (the code departs from it): the cursor after `primary` is not the end of the longest
valid literal. On `1.2.3+4` the longest valid literal `1.2` ends at index 3, but
`find_first_not_of("0123456789.")` moves the cursor to 5 (`stof` is given the text from the
cursor on and reads its literal there). On `42`, which ends the input, the cursor is `-1`
(`npos`), not the buffer length 2. -/
theorem primary_literal_cursor (v w : V) (hv : A.stof "1.2.3+4".toList = some v)
    (hw : A.stof "42".toList = some w) (fuel : Nat) :
    (primary A "1.2.3+4".toList (fuel + 1) start = .ok v ⟨5, false⟩ ∧
      specLiteralLen "1.2.3+4".toList = 3) ∧
    (primary A "42".toList (fuel + 1) start = .ok w ⟨-1, false⟩ ∧
      specLiteralLen "42".toList = 2) := by
  obtain ⟨zero, stof, neg, add, sub, mul, div, pow⟩ := A
  simp only at hv hw
  have hs : stof = fun s => if s = "1.2.3+4".toList then some v
      else if s = "42".toList then some w else stof s := by
    funext s; split_ifs <;> simp_all
  rw [hs]
  exact ⟨⟨rfl, by decide⟩, rfl, by decide⟩

/-- C16 (counterexample): on the line `(1+2 `, whose parenthesis is not closed, `primary`
returns with the error flag set and the value 3, which is not 0. -/
theorem primary_flag_nonzero :
    ∃ (v : ℚ) (st : State), primary ratOps "(1+2 ".toList 7 start = .ok v st ∧
      st.had_error = true ∧ v ≠ ratOps.zero := by
  refine ⟨3, ⟨4, true⟩, ?_, rfl, by norm_num [ratOps]⟩
  rw [primary_open_paren_spaced ratOps 1 2 (by decide) (by decide) 0]
  norm_num [ratOps]

/-! ## Spaces between the tokens -/

theorem getElem?_spaces (pre : List Char) (m : Nat) (post : List Char) (k : Nat)
    (h1 : pre.length ≤ k) (h2 : k < pre.length + m) :
    (pre ++ List.replicate m ' ' ++ post)[k]? = some ' ' := by
  rw [List.append_assoc, List.getElem?_append_right h1,
    List.getElem?_append_left (by simp; omega)]
  simp [List.getElem?_replicate]
  omega

theorem getElem?_after_spaces (pre : List Char) (m : Nat) (d : Char) (post : List Char) :
    (pre ++ List.replicate m ' ' ++ d :: post)[pre.length + m]? = some d := by
  have : pre.length + m = (pre ++ List.replicate m ' ').length := by simp
  rw [this, List.getElem?_append_right (le_refl _)]
  simp only [Nat.sub_self, List.getElem?_cons_zero]

theorem skipSpaces_replicate (src pre : List Char) (m : Nat) (d : Char) (post : List Char)
    (h : src = pre ++ List.replicate m ' ' ++ d :: post) (hd : d ≠ ' ') :
    skipSpaces src src.length (pre.length : Int) =
      ((pre ++ List.replicate m ' ').length : Int) := by
  have hle : pre.length ≤ src.length := by rw [h]; simp
  obtain ⟨j, hj, hij, hjl, hall, hstop⟩ := skipSpaces_spec src src.length pre.length hle
    (by omega)
  rw [hj]
  have hjm : j = pre.length + m := by
    rcases Nat.lt_trichotomy j (pre.length + m) with hlt | heq | hgt
    · exfalso
      apply hstop
      rw [h]
      exact getElem?_spaces pre m (d :: post) j hij hlt
    · exact heq
    · exfalso
      have := hall (pre.length + m) (by omega) hgt
      rw [h, getElem?_after_spaces] at this
      simp only [Option.some.injEq] at this
      exact hd this
  rw [hjm]
  simp

theorem matchCh_skip (src pre : List Char) (m : Nat) (d : Char) (post : List Char) (c : Char)
    (e : Bool) (h : src = pre ++ List.replicate m ' ' ++ d :: post) (hd : d ≠ ' ') :
    matchCh src c ⟨(pre.length : Int), e⟩ =
      if d ≠ c then .ok false ⟨((pre ++ List.replicate m ' ').length : Int), e⟩
      else .ok true ⟨((pre ++ List.replicate m ' ' ++ [d]).length : Int), e⟩ := by
  have hc := readChar_of_charAt (charAt_at src (pre ++ List.replicate m ' ') d post h)
  simp only [matchCh, skipSpaces_replicate src pre m d post h hd, hc]
  by_cases hdc : d = c
  · have : decide ((((pre ++ List.replicate m ' ').length : Nat) : Int) + 1 ≠ 0) = true := by
      simp only [ne_eq, decide_eq_true_eq]; omega
    simp [hdc, this]
    constructor <;> omega
  · simp [hdc]

theorem primary_lit_spaces (src pre lit : List Char) (m : Nat) (d : Char) (post : List Char)
    (h : src = pre ++ lit ++ List.replicate m ' ' ++ d :: post) (hl : IsLiteral lit)
    (hd : d ∉ digitsDot) (v : V)
    (hv : A.stof (lit ++ List.replicate m ' ' ++ d :: post) = some v) (fuel : Nat) (e : Bool) :
    primary A src (fuel + 1) ⟨(pre.length : Int), e⟩ =
      .ok v ⟨((pre ++ lit).length : Int), e⟩ := by
  cases m with
  | zero =>
    exact primary_lit_mid A src pre lit d post (by simpa using h) hl hd v (by simpa using hv)
      fuel e
  | succ m =>
    exact primary_lit_mid A src pre lit ' ' (List.replicate m ' ' ++ d :: post)
      (by simp [h, List.replicate_succ]) hl (by decide) v
      (by simpa [List.replicate_succ] using hv) fuel e

theorem unary_spaces_lit_end (src pre : List Char) (n : Nat) (lit : List Char)
    (h : src = pre ++ List.replicate n ' ' ++ lit) (hl : IsLiteral lit) (v : V)
    (hv : A.stof lit = some v) (fuel : Nat) (e : Bool) :
    unary A src (fuel + 2) ⟨(pre.length : Int), e⟩ = .ok v ⟨-1, e⟩ := by
  obtain ⟨x, rest, hx, hxd⟩ := hl.cons
  have hm := matchCh_skip src pre n x rest '-' e (by rw [h, hx]) (decDigits_ne hxd (by decide))
  rw [if_pos (decDigits_ne hxd (by decide))] at hm
  rw [unary, hm, Res.bind_ok]
  simp only [Bool.false_eq_true, if_false]
  exact primary_lit_end A src (pre ++ List.replicate n ' ') lit h hl v hv fuel e

theorem expo_spaces_lit_end (src pre : List Char) (n : Nat) (lit : List Char)
    (h : src = pre ++ List.replicate n ' ' ++ lit) (hl : IsLiteral lit) (v : V)
    (hv : A.stof lit = some v) (fuel : Nat) (e : Bool) :
    expo A src (fuel + 3) ⟨(pre.length : Int), e⟩ = .ok v ⟨-1, e⟩ := by
  rw [expo, unary_spaces_lit_end A src pre n lit h hl v hv fuel e, Res.bind_ok,
    matchCh_minus_one src '^' e (by decide), Res.bind_ok]
  simp

theorem term_spaced_value (a b : List Char) (ha : IsLiteral a) (hb : IsLiteral b)
    (op : Char) (hop : op = '+' ∨ op = '-' ∨ op = '*' ∨ op = '/' ∨ op = '^') (m n : Nat)
    (va vb : V)
    (hva : A.stof (a ++ List.replicate m ' ' ++ op :: List.replicate n ' ' ++ b) = some va)
    (hvb : A.stof b = some vb) (fuel : Nat) :
    term A (a ++ List.replicate m ' ' ++ op :: List.replicate n ' ' ++ b) (fuel + 6) start =
      .ok (applyOp A op va vb) ⟨-1, false⟩ := by
  generalize hsrc : a ++ List.replicate m ' ' ++ op :: List.replicate n ' ' ++ b = src
  have hod : op ∉ digitsDot := by rcases hop with h | h | h | h | h <;> subst h <;> decide
  have hos : op ≠ ' ' := by rcases hop with h | h | h | h | h <;> subst h <;> decide
  have h1 : src = [] ++ a ++ List.replicate m ' ' ++ op :: (List.replicate n ' ' ++ b) := by
    simp [← hsrc]
  have h2 : src = a ++ List.replicate m ' ' ++ op :: (List.replicate n ' ' ++ b) := by
    simp [← hsrc]
  have h3 : src = (a ++ List.replicate m ' ' ++ [op]) ++ List.replicate n ' ' ++ b := by
    simp [← hsrc]
  have h4 : src = (a ++ List.replicate m ' ') ++ List.replicate 0 ' ' ++
      op :: (List.replicate n ' ' ++ b) := by
    simp [← hsrc]
  have u1 : unary A src (fuel + 3) start = .ok va ⟨(a.length : Int), false⟩ := by
    have hu := unary_lit A src [] a _ (by simpa using h1) ha (fuel + 2) false
    rw [primary_lit_spaces A src [] a m op _ h1 ha hod va (by simpa using hva) (fuel + 1)
      false] at hu
    simpa using hu
  -- a miss, from the end of `a`: the spaces are skipped
  have miss1 : ∀ k : Char, op ≠ k → matchCh src k ⟨(a.length : Int), false⟩ =
      .ok false ⟨((a ++ List.replicate m ' ').length : Int), false⟩ := fun k hk => by
    rw [matchCh_skip src a m op _ k false h2 hos, if_pos hk]
  -- a miss, from the operator
  have miss2 : ∀ k : Char, op ≠ k →
      matchCh src k ⟨((a ++ List.replicate m ' ').length : Int), false⟩ =
        .ok false ⟨((a ++ List.replicate m ' ').length : Int), false⟩ := fun k hk => by
    have := matchCh_skip src (a ++ List.replicate m ' ') 0 op _ k false h4 hos
    rw [if_pos hk] at this
    simpa using this
  have hit1 : matchCh src op ⟨(a.length : Int), false⟩ =
      .ok true ⟨((a ++ List.replicate m ' ' ++ [op]).length : Int), false⟩ := by
    rw [matchCh_skip src a m op _ op false h2 hos, if_neg (by simp)]
  have hit2 : matchCh src op ⟨((a ++ List.replicate m ' ').length : Int), false⟩ =
      .ok true ⟨((a ++ List.replicate m ' ' ++ [op]).length : Int), false⟩ := by
    have := matchCh_skip src (a ++ List.replicate m ' ') 0 op _ op false h4 hos
    rw [if_neg (by simp)] at this
    simpa using this
  have eb : ∀ f : Nat, expo A src (f + 3)
      ⟨((a ++ List.replicate m ' ' ++ [op]).length : Int), false⟩ = .ok vb ⟨-1, false⟩ :=
    fun f => expo_spaces_lit_end A src _ n b h3 hb vb hvb f false
  have fb : ∀ f : Nat, factor A src (f + 4)
      ⟨((a ++ List.replicate m ' ' ++ [op]).length : Int), false⟩ = .ok vb ⟨-1, false⟩ :=
    fun f => factor_tail A src (f + 2) _ vb false (eb f)
  rcases hop with rfl | rfl | rfl | rfl | rfl
  · -- `+`
    have hap : applyOp A '+' va vb = A.add va vb := rfl
    rw [hap, term, factor, expo, u1, Res.bind_ok, miss1 '^' (by decide), Res.bind_ok]
    simp only [Bool.false_eq_true, if_false, Res.bind_ok]
    rw [factorMul, miss2 '*' (by decide), Res.bind_ok]
    simp only [Bool.false_eq_true, if_false, Res.bind_ok]
    rw [factorDiv, miss2 '/' (by decide), Res.bind_ok]
    simp only [Bool.false_eq_true, if_false, Res.bind_ok]
    rw [termAdd, hit2, Res.bind_ok]
    simp only [if_true, fb fuel, Res.bind_ok]
    rw [termAdd_done, Res.bind_ok, termSub_done]
  · -- `-`
    have hap : applyOp A '-' va vb = A.sub va vb := rfl
    rw [hap, term, factor, expo, u1, Res.bind_ok, miss1 '^' (by decide), Res.bind_ok]
    simp only [Bool.false_eq_true, if_false, Res.bind_ok]
    rw [factorMul, miss2 '*' (by decide), Res.bind_ok]
    simp only [Bool.false_eq_true, if_false, Res.bind_ok]
    rw [factorDiv, miss2 '/' (by decide), Res.bind_ok]
    simp only [Bool.false_eq_true, if_false, Res.bind_ok]
    rw [termAdd, miss2 '+' (by decide), Res.bind_ok]
    simp only [Bool.false_eq_true, if_false, Res.bind_ok]
    rw [termSub, hit2, Res.bind_ok]
    simp only [if_true, fb fuel, Res.bind_ok]
    rw [termSub_done]
  · -- `*`
    have hap : applyOp A '*' va vb = A.mul va vb := rfl
    rw [hap, term, factor, expo, u1, Res.bind_ok, miss1 '^' (by decide), Res.bind_ok]
    simp only [Bool.false_eq_true, if_false, Res.bind_ok]
    rw [factorMul, hit2, Res.bind_ok]
    simp only [if_true, eb fuel, Res.bind_ok]
    rw [factorMul_done, Res.bind_ok, factorDiv_done, Res.bind_ok, termAdd_done, Res.bind_ok,
      termSub_done]
  · -- `/`
    have hap : applyOp A '/' va vb = A.div va vb := rfl
    rw [hap, term, factor, expo, u1, Res.bind_ok, miss1 '^' (by decide), Res.bind_ok]
    simp only [Bool.false_eq_true, if_false, Res.bind_ok]
    rw [factorMul, miss2 '*' (by decide), Res.bind_ok]
    simp only [Bool.false_eq_true, if_false, Res.bind_ok]
    rw [factorDiv, hit2, Res.bind_ok]
    simp only [if_true, eb fuel, Res.bind_ok]
    rw [factorDiv_done, Res.bind_ok, termAdd_done, Res.bind_ok, termSub_done]
  · -- `^`
    have hap : applyOp A '^' va vb = A.pow va vb := rfl
    have e1 : expo A src (fuel + 4) start = .ok (A.pow va vb) ⟨-1, false⟩ := by
      rw [expo, u1, Res.bind_ok, hit1, Res.bind_ok]
      simp only [if_true]
      rw [unary_spaces_lit_end A src _ n b h3 hb vb hvb (fuel + 1) false, Res.bind_ok]
    rw [hap]
    exact term_tail A src (fuel + 4) start _ false (factor_tail A src (fuel + 3) start _
      false e1)

/-- C11: whitespace insensitivity. For all numeric literals `a`, `b`, every operator `op`
among `+`, `-`, `*`, `/`, `^` and all numbers `m`, `n` of spaces, the evaluation of `a`,
`m` spaces, `op`, `n` spaces, `b` (`2 + 3`) yields the same value and the same error flag as
the evaluation of `a op b` written without spaces (`2+3`): both return `a op b` with the
flag unset, for every fuel from 6 on. `va` is the value `stof` reads at `a`, in the one
text as in the other, and `vb` the value it reads at `b`. -/
theorem term_spaced_same (a b : List Char) (ha : IsLiteral a) (hb : IsLiteral b)
    (op : Char) (hop : op = '+' ∨ op = '-' ∨ op = '*' ∨ op = '/' ∨ op = '^') (m n : Nat)
    (va vb : V)
    (hva : A.stof (a ++ List.replicate m ' ' ++ op :: List.replicate n ' ' ++ b) = some va)
    (hva0 : A.stof (a ++ op :: b) = some va) (hvb : A.stof b = some vb) (fuel : Nat) :
    term A (a ++ List.replicate m ' ' ++ op :: List.replicate n ' ' ++ b) (fuel + 6) start =
        .ok (applyOp A op va vb) ⟨-1, false⟩ ∧
      term A (a ++ op :: b) (fuel + 6) start = .ok (applyOp A op va vb) ⟨-1, false⟩ := by
  refine ⟨term_spaced_value A a b ha hb op hop m n va vb hva hvb fuel, ?_⟩
  have h0 := term_spaced_value A a b ha hb op hop 0 0 va vb (by simpa using hva0) hvb fuel
  simpa using h0

/-! ## More inputs followed by a space -/

theorem term_neg_pow_spaced (a b : V) (ha : A.stof "2^2 ".toList = some a)
    (hb : A.stof "2 ".toList = some b) (fuel : Nat) :
    term A "-2^2 ".toList (fuel + 6) start = .ok (A.pow (A.neg a) b) ⟨5, false⟩ := by
  obtain ⟨zero, stof, neg, add, sub, mul, div, pow⟩ := A
  simp only at ha hb
  have hs : stof = fun s => if s = "2^2 ".toList then some a
      else if s = "2 ".toList then some b else stof s := by
    funext s; split_ifs <;> simp_all
  rw [hs]
  rfl

theorem term_add_spaces_spaced (a b : V) (ha : A.stof "2 + 3 ".toList = some a)
    (hb : A.stof "3 ".toList = some b) (fuel : Nat) :
    term A "2 + 3 ".toList (fuel + 6) start = .ok (A.add a b) ⟨6, false⟩ := by
  obtain ⟨zero, stof, neg, add, sub, mul, div, pow⟩ := A
  simp only at ha hb
  have hs : stof = fun s => if s = "2 + 3 ".toList then some a
      else if s = "3 ".toList then some b else stof s := by
    funext s; split_ifs <;> simp_all
  rw [hs]
  rfl

theorem term_add_plain_spaced (a b : V) (ha : A.stof "2+3 ".toList = some a)
    (hb : A.stof "3 ".toList = some b) (fuel : Nat) :
    term A "2+3 ".toList (fuel + 6) start = .ok (A.add a b) ⟨4, false⟩ := by
  obtain ⟨zero, stof, neg, add, sub, mul, div, pow⟩ := A
  simp only at ha hb
  have hs : stof = fun s => if s = "2+3 ".toList then some a
      else if s = "3 ".toList then some b else stof s := by
    funext s; split_ifs <;> simp_all
  rw [hs]
  rfl

/-- With exact arithmetic `2 + 3 ` and `2+3 ` both give 5, and `-2^2 ` gives 4. -/
theorem spaced_values :
    term ratOps "2 + 3 ".toList 6 start = .ok 5 ⟨6, false⟩ ∧
      term ratOps "2+3 ".toList 6 start = .ok 5 ⟨4, false⟩ ∧
      term ratOps "-2^2 ".toList 6 start = .ok 4 ⟨5, false⟩ := by
  refine ⟨?_, ?_, ?_⟩
  · rw [show (6 : Nat) = 0 + 6 from rfl,
      term_add_spaces_spaced ratOps 2 3 (by decide) (by decide) 0]
    norm_num [ratOps]
  · rw [show (6 : Nat) = 0 + 6 from rfl,
      term_add_plain_spaced ratOps 2 3 (by decide) (by decide) 0]
    norm_num [ratOps]
  · rw [show (6 : Nat) = 0 + 6 from rfl,
      term_neg_pow_spaced ratOps 2 2 (by decide) (by decide) 0]
    norm_num [ratOps, ratPow]

/-! ## Instances of the later theorems -/

theorem term_spaced_same_witness :
    term ratOps "2 + 3".toList 6 start = .ok 5 ⟨-1, false⟩ ∧
      term ratOps "2+3".toList 6 start = .ok 5 ⟨-1, false⟩ := by
  have h := term_spaced_same ratOps "2".toList "3".toList (isLiteral_digit '2' (by decide))
    (isLiteral_digit '3' (by decide)) '+' (Or.inl rfl) 1 1 2 3 (by decide) (by decide)
    (by decide) 0
  have hv : applyOp ratOps '+' 2 3 = 5 := by norm_num [applyOp, ratOps]
  rw [hv] at h
  exact h

theorem term_div_mul_unconsumed_witness :
    term ratOps "8/2*2".toList 6 start = .ok 4 ⟨3, false⟩ := by
  have h := term_div_mul_unconsumed ratOps "8".toList "2".toList "2".toList
    (isLiteral_digit '8' (by decide)) (isLiteral_digit '2' (by decide)) 8 2
    (by decide) (by decide) 0
  rw [show "8/2*2".toList = "8".toList ++ '/' :: "2".toList ++ '*' :: "2".toList from rfl,
    show (6 : Nat) = 0 + 6 from rfl, h]
  norm_num [ratOps]

theorem term_sub_add_unconsumed_witness :
    term ratOps "1-2+3".toList 6 start = .ok (-1) ⟨3, false⟩ := by
  have h := term_sub_add_unconsumed ratOps "1".toList "2".toList "3".toList
    (isLiteral_digit '1' (by decide)) (isLiteral_digit '2' (by decide)) 1 2
    (by decide) (by decide) 0
  rw [show "1-2+3".toList = "1".toList ++ '-' :: "2".toList ++ '+' :: "3".toList from rfl,
    show (6 : Nat) = 0 + 6 from rfl, h]
  norm_num [ratOps]

theorem primary_literal_cursor_witness :
    (primary symOps "1.2.3+4".toList 1 start = .ok (.lit "1.2.3+4".toList) ⟨5, false⟩ ∧
      specLiteralLen "1.2.3+4".toList = 3) ∧
    (primary symOps "42".toList 1 start = .ok (.lit "42".toList) ⟨-1, false⟩ ∧
      specLiteralLen "42".toList = 2) :=
  primary_literal_cursor symOps _ _ rfl rfl 0

theorem primary_error_cursor_witness :
    (primary symOps "+".toList 1 start = .ok .zero ⟨0, true⟩ ∧
      matchCh "+".toList '+' ⟨0, true⟩ = .ok true ⟨1, true⟩) ∧
    primary symOps "(1 ".toList 7 start = .ok (.lit "1 ".toList) ⟨2, true⟩ :=
  primary_error_cursor symOps _ rfl 0

theorem primary_no_value_witness :
    primary symOps "+".toList 1 start = .ok .zero ⟨0, true⟩ ∧
      (Sym.zero = symOps.zero ∧ (⟨0, true⟩ : State) = errorState "+".toList) :=
  ⟨by decide, primary_no_value symOps "+".toList 1 start ⟨0, true⟩ .zero (by decide) rfl rfl
    (fun st1 h => by
      have hm : matchCh "+".toList '(' start = .ok false start := by decide
      rw [hm] at h
      exact absurd h (by simp))⟩

theorem term_pow_pow_unchained_witness :
    term ratOps "2^3^2".toList 5 start = .ok 8 ⟨3, false⟩ := by
  have h := term_pow_pow_unchained ratOps "2".toList "3".toList "2".toList
    (isLiteral_digit '2' (by decide)) (isLiteral_digit '3' (by decide)) 2 3
    (by decide) (by decide) 0
  rw [show "2^3^2".toList = "2".toList ++ '^' :: "3".toList ++ '^' :: "2".toList from rfl,
    show (5 : Nat) = 0 + 5 from rfl, h]
  norm_num [ratOps, ratPow]

theorem term_stray_paren_witness :
    term ratOps "2)".toList 5 start = .ok 2 ⟨1, false⟩ := by
  have h := term_stray_paren ratOps "2".toList [] (isLiteral_digit '2' (by decide)) 2
    (by decide) 0
  rw [show "2)".toList = "2".toList ++ ')' :: [] from rfl, show (5 : Nat) = 0 + 5 from rfl, h]
  norm_num

theorem term_neg_pow_witness :
    term ratOps "-2^2".toList 6 start = .ok 4 ⟨-1, false⟩ := by
  have h := term_neg_pow ratOps "2".toList "2".toList (isLiteral_digit '2' (by decide))
    (isLiteral_digit '2' (by decide)) 2 2 (by decide) (by decide) 0
  rw [show "-2^2".toList = '-' :: "2".toList ++ '^' :: "2".toList from rfl,
    show (6 : Nat) = 0 + 6 from rfl, h]
  norm_num [ratOps, ratPow]

end Calc

namespace Render

theorem ResizeContext_wellSized (r : Renderer) (width height : Nat) :
    WellSized (ResizeContext r width height) := by
  constructor
  · simp [ResizeContext]
  · intro row hrow
    simp only [ResizeContext] at hrow
    rw [List.eq_of_mem_replicate hrow]
    simp [ResizeContext]

theorem cell_set (ctx : List PixelRow) (row : PixelRow) (x y : Nat) (p : Pixel)
    (hrow : ctx[y]? = some row) (hx : x < row.length) (cx cy : Nat) :
    cell (ctx.set y (row.set x p)) cx cy =
      if cy = y ∧ cx = x then some p else cell ctx cx cy := by
  have hy : y < ctx.length := by
    by_contra hge
    rw [List.getElem?_eq_none (by omega)] at hrow
    exact absurd hrow (by simp)
  by_cases hcy : cy = y
  · subst hcy
    by_cases hcx : cx = x
    · subst hcx
      simp [cell, List.getElem?_set, hy, hx]
    · have hne : ¬ x = cx := fun h => hcx h.symm
      simp [cell, List.getElem?_set, hy, hcx, hne, hrow]
  · have hne : ¬ y = cy := fun h => hcy h.symm
    simp [cell, List.getElem?_set, hcy, hne]

theorem Submit_spec (r : Renderer) (hr : WellSized r) (x y : Int) (p : Pixel) :
    ∃ r1, Submit r x y p = some r1 ∧ WellSized r1 ∧
      r1.mOldConsoleMode = r.mOldConsoleMode ∧ r1.mContextWidth = r.mContextWidth ∧
      r1.mContextHeight = r.mContextHeight ∧ r1.mBaseContext = r.mBaseContext ∧
      (∀ cx cy : Nat, cell r1.mContext cx cy =
        if (cy : Int) = y ∧ (cx : Int) = x ∧ cx < r.mContextWidth ∧ cy < r.mContextHeight
        then some p else cell r.mContext cx cy) ∧
      ((x < 0 ∨ (r.mContextWidth : Int) ≤ x ∨ y < 0 ∨ (r.mContextHeight : Int) ≤ y) →
        r1 = r) := by
  by_cases hg : x < 0 ∨ (r.mContextWidth : Int) ≤ x ∨ y < 0 ∨ (r.mContextHeight : Int) ≤ y
  · refine ⟨r, by simp [Submit, hg], hr, rfl, rfl, rfl, rfl, ?_, fun _ => rfl⟩
    intro cx cy
    rw [if_neg]
    rintro ⟨h1, h2, h3, h4⟩
    omega
  · have hx0 : 0 ≤ x := by omega
    have hy0 : 0 ≤ y := by omega
    obtain ⟨xn, rfl⟩ := Int.eq_ofNat_of_zero_le hx0
    obtain ⟨yn, rfl⟩ := Int.eq_ofNat_of_zero_le hy0
    have hxw : xn < r.mContextWidth := by omega
    have hyh : yn < r.mContextHeight := by omega
    have hylen : yn < r.mContext.length := by rw [hr.1]; exact hyh
    have hrow : r.mContext[yn]? = some r.mContext[yn] := List.getElem?_eq_getElem hylen
    have hrl : r.mContext[yn].length = r.mContextWidth :=
      hr.2 _ (List.getElem_mem hylen)
    refine ⟨{ r with mContext := r.mContext.set yn (r.mContext[yn].set xn p) }, ?_, ?_, rfl,
      rfl, rfl, rfl, ?_, fun h => absurd h hg⟩
    · simp only [Submit, hg, if_false, Int.toNat_ofNat, hrow, hrl, hxw, if_true]
    · constructor
      · simp [hr.1]
      · intro row hmem
        simp only at hmem
        rcases List.mem_or_eq_of_mem_set hmem with h | h
        · exact hr.2 row h
        · rw [h, List.length_set, hrl]
    · intro cx cy
      simp only
      rw [cell_set r.mContext r.mContext[yn] xn yn p hrow (by omega) cx cy]
      by_cases hc : cy = yn ∧ cx = xn
      · rw [if_pos hc, if_pos]
        obtain ⟨rfl, rfl⟩ := hc
        exact ⟨rfl, rfl, hxw, hyh⟩
      · rw [if_neg hc, if_neg]
        rintro ⟨h1, h2, -, -⟩
        exact hc ⟨by exact_mod_cast h1, by exact_mod_cast h2⟩

theorem submitLoop_spec (y : Int) :
    ∀ (row : PixelRow) (r : Renderer) (x : Int), WellSized r →
      ∃ r1, submitLoop y row r x = some r1 ∧ WellSized r1 ∧
        r1.mOldConsoleMode = r.mOldConsoleMode ∧ r1.mContextWidth = r.mContextWidth ∧
        r1.mContextHeight = r.mContextHeight ∧ r1.mBaseContext = r.mBaseContext ∧
        ∀ cx cy : Nat, cell r1.mContext cx cy =
          if (cy : Int) = y ∧ cx < r.mContextWidth ∧ cy < r.mContextHeight ∧ x ≤ cx ∧
            (cx : Int) < x + row.length
          then row[((cx : Int) - x).toNat]? else cell r.mContext cx cy := by
  intro row
  induction row with
  | nil =>
    intro r x hr
    refine ⟨r, rfl, hr, rfl, rfl, rfl, rfl, ?_⟩
    intro cx cy
    rw [if_neg]
    rintro ⟨-, -, -, h1, h2⟩
    simp only [List.length_nil, Nat.cast_zero, add_zero] at h2
    omega
  | cons p rest ih =>
    intro r x hr
    obtain ⟨r1, hs1, hw1, hm1, hW1, hH1, hb1, hc1, -⟩ := Submit_spec r hr x y p
    obtain ⟨r2, hs2, hw2, hm2, hW2, hH2, hb2, hc2⟩ := ih r1 (x + 1) hw1
    refine ⟨r2, ?_, hw2, hm2.trans hm1, hW2.trans hW1, hH2.trans hH1, hb2.trans hb1, ?_⟩
    · simp only [submitLoop, hs1, Option.some_bind, hs2]
    · intro cx cy
      rw [hc2 cx cy, hc1 cx cy, hW1, hH1]
      by_cases hC2 : (cy : Int) = y ∧ cx < r.mContextWidth ∧ cy < r.mContextHeight ∧
          x + 1 ≤ cx ∧ (cx : Int) < x + 1 + rest.length
      · obtain ⟨e1, e2, e3, e4, e5⟩ := hC2
        rw [if_pos ⟨e1, e2, e3, e4, e5⟩, if_pos ⟨e1, e2, e3, by omega, by
          simp only [List.length_cons, Nat.cast_add, Nat.cast_one]; omega⟩]
        have : ((cx : Int) - x).toNat = ((cx : Int) - (x + 1)).toNat + 1 := by omega
        rw [this, List.getElem?_cons_succ]
      · rw [if_neg hC2]
        by_cases hC1 : (cy : Int) = y ∧ (cx : Int) = x ∧ cx < r.mContextWidth ∧
            cy < r.mContextHeight
        · obtain ⟨e1, e2, e3, e4⟩ := hC1
          rw [if_pos ⟨e1, e2, e3, e4⟩, if_pos ⟨e1, e3, e4, by omega, by
            simp only [List.length_cons, Nat.cast_add, Nat.cast_one]; omega⟩]
          have : ((cx : Int) - x).toNat = 0 := by omega
          rw [this, List.getElem?_cons_zero]
        · rw [if_neg hC1, if_neg]
          rintro ⟨e1, e2, e3, e4, e5⟩
          simp only [List.length_cons, Nat.cast_add, Nat.cast_one] at e5
          by_cases hx : (cx : Int) = x
          · exact hC1 ⟨e1, hx, e2, e3⟩
          · exact hC2 ⟨e1, e2, e3, by omega, by omega⟩

theorem submitLoop_noop (y : Int) :
    ∀ (row : PixelRow) (r : Renderer) (x : Int),
      (∀ k : Nat, k < row.length → x + k < 0 ∨ (r.mContextWidth : Int) ≤ x + k) →
      submitLoop y row r x = some r := by
  intro row
  induction row with
  | nil => intro r x _; rfl
  | cons p rest ih =>
    intro r x h
    have h0 : x < 0 ∨ (r.mContextWidth : Int) ≤ x := by
      have := h 0 (by simp)
      simpa using this
    have hs : Submit r x y p = some r := by
      have hg : x < 0 ∨ (r.mContextWidth : Int) ≤ x ∨ y < 0 ∨ (r.mContextHeight : Int) ≤ y := by
        rcases h0 with h0 | h0
        · exact Or.inl h0
        · exact Or.inr (Or.inl h0)
      simp [Submit, hg]
    simp only [submitLoop, hs, Option.some_bind]
    apply ih
    intro k hk
    have := h (k + 1) (by simp; omega)
    simp only [Nat.cast_add, Nat.cast_one] at this
    rcases this with h1 | h1
    · left; omega
    · right; omega

/-- C20: `Renderer::Submit(x, y, row)` clips. On a context of width `W` and height `H` whose
`H` rows have `W` pixels each, the call returns (no store outside a vector) and afterwards:
for each `k < |row|` with `0 <= x + k < W` and `0 <= y < H` the cell `(x + k, y)` holds
`row[k]`; every other cell is as before; the context still has `H` rows of `W` pixels; the
dimensions, `mBaseContext` and `mOldConsoleMode` are unchanged; and when `y` is out of
range, or every `x + k` is, nothing changes at all. -/
theorem SubmitRow_clips (r : Renderer) (hr : WellSized r) (x y : Int) (row : PixelRow) :
    ∃ r1, SubmitRow r x y row = some r1 ∧
      (∀ k : Nat, k < row.length → 0 ≤ x + k → x + k < r.mContextWidth → 0 ≤ y →
        y < r.mContextHeight → cell r1.mContext (x + k).toNat y.toNat = row[k]?) ∧
      (∀ cx cy : Nat,
        (¬ ∃ k : Nat, k < row.length ∧ x + k = cx ∧ y = cy ∧ cx < r.mContextWidth ∧
          cy < r.mContextHeight) →
        cell r1.mContext cx cy = cell r.mContext cx cy) ∧
      WellSized r1 ∧ r1.mContextWidth = r.mContextWidth ∧
      r1.mContextHeight = r.mContextHeight ∧ r1.mBaseContext = r.mBaseContext ∧
      r1.mOldConsoleMode = r.mOldConsoleMode ∧
      ((y < 0 ∨ (r.mContextHeight : Int) ≤ y ∨
          ∀ k : Nat, k < row.length → x + k < 0 ∨ (r.mContextWidth : Int) ≤ x + k) →
        r1 = r) := by
  by_cases hy : y < 0 ∨ (r.mContextHeight : Int) ≤ y
  · refine ⟨r, by simp [SubmitRow, hy], ?_, fun _ _ _ => rfl, hr, rfl, rfl, rfl, rfl,
      fun _ => rfl⟩
    intro k _ _ _ h1 h2
    omega
  · obtain ⟨r1, hs, hw, hm, hW, hH, hb, hc⟩ := submitLoop_spec y row r x hr
    have hrun : SubmitRow r x y row = submitLoop y row r x := by simp [SubmitRow, hy]
    refine ⟨r1, by rw [hrun, hs], ?_, ?_, hw, hW, hH, hb, hm, ?_⟩
    · intro k hk h1 h2 h3 h4
      rw [hc, if_pos ⟨by omega, by omega, by omega, by omega, by omega⟩]
      congr 1
      omega
    · intro cx cy hne
      rw [hc, if_neg]
      rintro ⟨e1, e2, e3, e4, e5⟩
      apply hne
      exact ⟨((cx : Int) - x).toNat, by omega, by omega, e1.symm, e2, e3⟩
    · intro h
      rcases h with h | h | h
      · exact absurd (Or.inl h) hy
      · exact absurd (Or.inr h) hy
      · have := submitLoop_noop y row r x h
        rw [hs] at this
        exact Option.some.inj this

theorem SubmitRow_clips_witness :
    WellSized (ResizeContext ⟨0, 0, 0, [], []⟩ 3 2) ∧
      ∃ r1, SubmitRow (ResizeContext ⟨0, 0, 0, [], []⟩ 3 2) (-1) 1
          [⟨'a', Color.Red, Attribute.None⟩, ⟨'b', Color.Red, Attribute.None⟩] = some r1 ∧
        cell r1.mContext 0 1 = some ⟨'b', Color.Red, Attribute.None⟩ ∧
        cell r1.mContext 1 1 = some ⟨' ', Color.Default, Attribute.None⟩ := by
  refine ⟨ResizeContext_wellSized _ 3 2, ?_⟩
  obtain ⟨r1, hs, h1, h2, -⟩ := SubmitRow_clips (ResizeContext ⟨0, 0, 0, [], []⟩ 3 2)
    (ResizeContext_wellSized _ 3 2) (-1) 1
    [⟨'a', Color.Red, Attribute.None⟩, ⟨'b', Color.Red, Attribute.None⟩]
  refine ⟨r1, hs, ?_, ?_⟩
  · have := h1 1 (by decide) (by decide) (by decide) (by decide) (by decide)
    simpa using this
  · rw [h2 1 1]
    · decide
    · rintro ⟨k, hk, e1, -⟩
      simp only [List.length_cons, List.length_nil] at hk
      omega

end Render
